import Mathlib

/-!
The library abb_librws: attribute-predicate search over a parsed XML tree

A shallow embedding of `src/src/rws_common.cpp` (`xmlFindNodes`, the two
`xmlFindTextContent` overloads, `xmlNodeHasAttribute`) and of the relevant
declarations of `src/include/abb_librws/rws_common.h`.

The functions walk a Poco DOM tree. The part of the Poco DOM interface they use
(`nodeType`, `nodeName`, `nodeValue`, `parentNode`, `hasChildNodes`, `childNodes`,
`hasAttributes`, `attributes`, `NodeList::item`, `NodeIterator`) is an external
library; it is modelled here by its DOM contract:

* a tree node is a value of `Node`; element nodes own an ordered attribute list and
  an ordered child list, text nodes own character data and have no children;
* a non-null `Poco::XML::Node*` is a `NodePtr`: the node it points to together with
  the chain of its ancestors (nearest first), each with the index the node below it
  has among that ancestor's children. `parentNode()` pops the chain, `childNodes()`
  pushes on it. A null pointer is `none`;
* a `NodeIterator` created on a root enumerates the subtree of the root in document
  order (pre-order, the root first) and `nextNode()` yields the next node accepted
  by the `whatToShow` mask, or null when the enumeration is exhausted.

The functions are embedded twice. The first embedding reads each function as a total
function on the tree: loops are recursions over the list of the items still to visit.
The second, step-by-step embedding keeps the loop index, fetches every item through
`item(i)`, treats a member call through a null pointer as a failure and carries budgets
for loop rounds and nested calls; it is used for the statements about error branches and
termination, and is proved to return the values of the first embedding.

The class `TriBool` of rws_common.h is embedded as a structure over its enum, and the
predefined predicates and identifiers of `SystemConstants::RWS` as constants.
-/

namespace abb.rws

/-! ## Data model -/

/-- The struct `XMLAttribute` of rws_common.h: a (name, value) pair. The default
constructor leaves both strings empty. -/
structure XMLAttribute where
  name : String := ""
  value : String := ""
  deriving DecidableEq, Repr

/-- The enum `Poco::XML::Node` node types, in declaration order (ELEMENT_NODE = 1). -/
inductive NodeType where
  | ELEMENT_NODE
  | ATTRIBUTE_NODE
  | TEXT_NODE
  | CDATA_SECTION_NODE
  | ENTITY_REFERENCE_NODE
  | ENTITY_NODE
  | PROCESSING_INSTRUCTION_NODE
  | COMMENT_NODE
  | DOCUMENT_NODE
  | DOCUMENT_TYPE_NODE
  | DOCUMENT_FRAGMENT_NODE
  | NOTATION_NODE
  deriving DecidableEq, Repr

/-- The numeric value of a node type constant (ELEMENT_NODE = 1, ..., NOTATION_NODE = 12). -/
def NodeType.code : NodeType → Nat
  | .ELEMENT_NODE => 1
  | .ATTRIBUTE_NODE => 2
  | .TEXT_NODE => 3
  | .CDATA_SECTION_NODE => 4
  | .ENTITY_REFERENCE_NODE => 5
  | .ENTITY_NODE => 6
  | .PROCESSING_INSTRUCTION_NODE => 7
  | .COMMENT_NODE => 8
  | .DOCUMENT_NODE => 9
  | .DOCUMENT_TYPE_NODE => 10
  | .DOCUMENT_FRAGMENT_NODE => 11
  | .NOTATION_NODE => 12

/-- The kinds of node that are neither an element nor a text node. -/
inductive OtherKind where
  | ATTRIBUTE
  | CDATA_SECTION
  | ENTITY_REFERENCE
  | ENTITY
  | PROCESSING_INSTRUCTION
  | COMMENT
  | DOCUMENT
  | DOCUMENT_TYPE
  | DOCUMENT_FRAGMENT
  | NOTATION
  deriving DecidableEq, Repr

/-- The node type constant reported by a node of the given kind. -/
def OtherKind.nodeType : OtherKind → NodeType
  | .ATTRIBUTE => .ATTRIBUTE_NODE
  | .CDATA_SECTION => .CDATA_SECTION_NODE
  | .ENTITY_REFERENCE => .ENTITY_REFERENCE_NODE
  | .ENTITY => .ENTITY_NODE
  | .PROCESSING_INSTRUCTION => .PROCESSING_INSTRUCTION_NODE
  | .COMMENT => .COMMENT_NODE
  | .DOCUMENT => .DOCUMENT_NODE
  | .DOCUMENT_TYPE => .DOCUMENT_TYPE_NODE
  | .DOCUMENT_FRAGMENT => .DOCUMENT_FRAGMENT_NODE
  | .NOTATION => .NOTATION_NODE

/-- An attribute node held in the `NamedNodeMap` of an element: `nodeName()` and
`nodeValue()` are the attribute's name and value. -/
structure Attr where
  nodeName : String
  nodeValue : String
  deriving DecidableEq, Repr

/-- A node of a DOM tree. Elements carry a name, their attributes in stored order and
their children in stored order; text nodes carry their character data; every other
kind of node (the document node, comments, CDATA sections, ...) carries its kind, its
node value and its children. -/
inductive Node where
  | element (nodeName : String) (attributes : List Attr) (childNodes : List Node)
  | text (data : String)
  | other (kind : OtherKind) (nodeValue : String) (childNodes : List Node)
  deriving Repr

/-- Method `nodeType()`. -/
def Node.nodeType : Node → NodeType
  | .element _ _ _ => .ELEMENT_NODE
  | .text _ => .TEXT_NODE
  | .other k _ _ => k.nodeType

/-- Method `nodeValue()`: the character data of a text node, the stored value of
another non-element node, and the empty string for an element. -/
def Node.nodeValue : Node → String
  | .element _ _ _ => ""
  | .text data => data
  | .other _ v _ => v

/-- The children of a node, in stored order (a text node has none). -/
def Node.childNodes : Node → List Node
  | .element _ _ cs => cs
  | .text _ => []
  | .other _ _ cs => cs

/-- The content of the map returned by `attributes()`: the attributes of an element in
stored order. Other nodes have no attribute map, which is rendered as the empty list;
the code consults the map only after `hasAttributes()` returned true. -/
def Node.attributes : Node → List Attr
  | .element _ attrs _ => attrs
  | .text _ => []
  | .other _ _ _ => []

/-- A non-null `Poco::XML::Node*`: the node pointed to and its ancestors, nearest
first; the entry `(i, a)` says that the node below is `a.childNodes().item(i)`. -/
structure NodePtr where
  node : Node
  up : List (Nat × Node)

/-- Method `nodeType()` through a pointer. -/
def NodePtr.nodeType (p : NodePtr) : NodeType := p.node.nodeType

/-- Method `nodeValue()` through a pointer. -/
def NodePtr.nodeValue (p : NodePtr) : String := p.node.nodeValue

/-- Method `parentNode()`: null for a node without parent. -/
def NodePtr.parentNode (p : NodePtr) : Option NodePtr :=
  match p.up with
  | [] => none
  | (_, a) :: rest => some ⟨a, rest⟩

/-- Method `hasChildNodes()`. -/
def NodePtr.hasChildNodes (p : NodePtr) : Bool := !p.node.childNodes.isEmpty

/-- Method `hasAttributes()`: true exactly for an element with at least one attribute. -/
def NodePtr.hasAttributes (p : NodePtr) : Bool := !p.node.attributes.isEmpty

/-- Method `attributes()`, as the list of the attribute nodes `item(0)`, `item(1)`, ... -/
def NodePtr.attributes (p : NodePtr) : List Attr := p.node.attributes

/-- The pointers `item(i)`, `item(i+1)`, ... of the child list of the node `parent`
located at `up`, where `cs` are the children from index `i` on. -/
def childPtrs (parent : Node) (up : List (Nat × Node)) : Nat → List Node → List NodePtr
  | _, [] => []
  | i, c :: rest => ⟨c, (i, parent) :: up⟩ :: childPtrs parent up (i + 1) rest

/-- Method `childNodes()`, as the list of the pointers `item(0)`, `item(1)`, ... -/
def NodePtr.childNodes (p : NodePtr) : List NodePtr :=
  childPtrs p.node p.up 0 p.node.childNodes

/-- A `Poco::XML::Document`: the document node, which owns the top-level nodes. -/
structure Document where
  childNodes : List Node

/-- The document node as a tree node: kind document, empty node value. -/
def Document.toNode (d : Document) : Node := .other .DOCUMENT "" d.childNodes

/-- The pointer to the document node; the document node has no parent. -/
def Document.toPtr (d : Document) : NodePtr := ⟨d.toNode, []⟩

mutual
/-- Document order of the subtree of the node `n` located at `up`: the node itself,
then the subtrees of its children from left to right. -/
def documentOrderNode (up : List (Nat × Node)) : Node → List NodePtr
  | .element nm attrs cs =>
      ⟨.element nm attrs cs, up⟩ :: documentOrderList (.element nm attrs cs) up 0 cs
  | .text data => [⟨.text data, up⟩]
  | .other k v cs =>
      ⟨.other k v cs, up⟩ :: documentOrderList (.other k v cs) up 0 cs
/-- Document order of the subtrees of the children `cs` (from index `i` on) of the
node `parent` located at `up`. -/
def documentOrderList (parent : Node) (up : List (Nat × Node)) : Nat → List Node → List NodePtr
  | _, [] => []
  | i, c :: rest =>
      documentOrderNode ((i, parent) :: up) c ++ documentOrderList parent up (i + 1) rest
end

/-- Document order of the subtree below (and including) the node pointed to. -/
def documentOrder (p : NodePtr) : List NodePtr := documentOrderNode p.up p.node

/-- The constant `Poco::XML::NodeFilter::SHOW_ELEMENT`. -/
def SHOW_ELEMENT : Nat := 1

/-- A `Poco::XML::NodeIterator` without node filter: the `whatToShow` mask and the
nodes of the enumeration that have not been visited yet, in document order. -/
structure NodeIterator where
  whatToShow : Nat
  pending : List NodePtr

/-- Constructor `NodeIterator(root, whatToShow)`: nothing has been visited. -/
def NodeIterator.create (root : NodePtr) (whatToShow : Nat) : NodeIterator :=
  ⟨whatToShow, documentOrder root⟩

/-- Whether the mask shows a node: bit `nodeType() - 1` of `whatToShow` is set. -/
def NodeIterator.accept (whatToShow : Nat) (p : NodePtr) : Bool :=
  whatToShow.testBit (p.nodeType.code - 1)

/-- The first accepted node of a pending enumeration and what remains after it. -/
def NodeIterator.advance (whatToShow : Nat) : List NodePtr → Option NodePtr × List NodePtr
  | [] => (none, [])
  | p :: rest =>
      if NodeIterator.accept whatToShow p then (some p, rest)
      else NodeIterator.advance whatToShow rest

/-- Method `nextNode()`: the next node in document order that the mask shows (null
when there is none), and the iterator after the call. -/
def NodeIterator.nextNode (it : NodeIterator) : Option NodePtr × NodeIterator :=
  ((NodeIterator.advance it.whatToShow it.pending).1,
   ⟨it.whatToShow, (NodeIterator.advance it.whatToShow it.pending).2⟩)

/-! ## The functions of rws_common.cpp -/

/-- The loop of `xmlNodeHasAttribute` (lines 145-153) over the attributes not yet
inspected, with the flag `found`: it runs while attributes remain and `found` is
false, and sets `found` when name and value both equal the requested ones. -/
def xmlNodeHasAttributeLoop (attr : XMLAttribute) : List Attr → Bool → Bool
  | p_attribute :: rest, false =>
      if p_attribute.nodeName == attr.name && p_attribute.nodeValue == attr.value then
        xmlNodeHasAttributeLoop attr rest true
      else
        xmlNodeHasAttributeLoop attr rest false
  | _, found => found

/-- Function `xmlNodeHasAttribute` (lines 137-157). -/
def xmlNodeHasAttribute (p_node : Option NodePtr) (attr : XMLAttribute) : Bool :=
  let found := attr.name.isEmpty && attr.value.isEmpty
  match p_node with
  | some p =>
      if !found && p.hasAttributes then
        xmlNodeHasAttributeLoop attr p.attributes found
      else
        found
  | none => found

mutual
/-- The body of the node entry of `xmlFindTextContent` (lines 102-132) for the
non-null pointer to the node `n` located at `up`. A text node whose parent has the
attribute yields its value; otherwise the children are searched (a text node has no
children, so its result stays empty). -/
def xmlFindTextContentNode (attr : XMLAttribute) (up : List (Nat × Node)) : Node → String
  | .text data =>
      if xmlNodeHasAttribute (NodePtr.parentNode ⟨.text data, up⟩) attr then data else ""
  | .element nm attrs cs =>
      if NodePtr.hasChildNodes ⟨.element nm attrs cs, up⟩ then
        xmlFindTextContentLoop attr (.element nm attrs cs) up 0 cs false ""
      else ""
  | .other k v cs =>
      if NodePtr.hasChildNodes ⟨.other k v cs, up⟩ then
        xmlFindTextContentLoop attr (.other k v cs) up 0 cs false ""
      else ""
/-- The child loop of `xmlFindTextContent` (lines 115-129) in the node `parent` located
at `up`: `i` is the loop index, the list holds the children `item(i)`, `item(i+1)`, ...,
and the last two arguments are the variables `found` and `result`. The loop runs while
children remain and `found` is false. -/
def xmlFindTextContentLoop (attr : XMLAttribute) (parent : Node) (up : List (Nat × Node)) :
    Nat → List Node → Bool → String → String
  | i, c :: rest, false, _ =>
      if NodePtr.nodeType ⟨c, (i, parent) :: up⟩ == NodeType.TEXT_NODE
          && xmlNodeHasAttribute (NodePtr.parentNode ⟨c, (i, parent) :: up⟩) attr then
        xmlFindTextContentLoop attr parent up (i + 1) rest true
          (NodePtr.nodeValue ⟨c, (i, parent) :: up⟩)
      else
        xmlFindTextContentLoop attr parent up (i + 1) rest
          (!(xmlFindTextContentNode attr ((i, parent) :: up) c).isEmpty)
          (xmlFindTextContentNode attr ((i, parent) :: up) c)
  | _, _, _, result => result
end

/-- Function `xmlFindTextContent(const Poco::XML::Node*, XMLAttribute)` (lines 98-135),
the node entry: empty for a null pointer. -/
def xmlFindTextContent (p_node : Option NodePtr) (attr : XMLAttribute) : String :=
  match p_node with
  | none => ""
  | some p => xmlFindTextContentNode attr p.up p.node

/-- Function `xmlFindTextContent(Poco::AutoPtr<Poco::XML::Document>, XMLAttribute)`
(lines 85-96), the whole-document entry: the node entry on the first node returned by
an element iterator over the document. -/
def xmlFindTextContentDocument (p_xml_document : Option Document) (attr : XMLAttribute) :
    String :=
  match p_xml_document with
  | none => ""
  | some doc =>
      xmlFindTextContent (NodeIterator.create doc.toPtr SHOW_ELEMENT).nextNode.1 attr

/-- The loop of `xmlFindNodes` (lines 69-79): `p_node` is the node under inspection,
`node_iterator` the iterator state and `result` the vector built so far. The loop runs
while `p_node` is not null; each round appends `p_node` when it has the attribute and
fetches the next node. -/
def xmlFindNodesLoop (attr : XMLAttribute) (p_node : Option NodePtr)
    (node_iterator : NodeIterator) (result : List NodePtr) : List NodePtr :=
  match p_node with
  | none => result
  | some p =>
      xmlFindNodesLoop attr node_iterator.nextNode.1 node_iterator.nextNode.2
        (if xmlNodeHasAttribute (some p) attr then result ++ [p] else result)
termination_by node_iterator.pending.length + (if p_node.isSome then 1 else 0)
decreasing_by
  have h : ∀ l : List NodePtr,
      (NodeIterator.advance node_iterator.whatToShow l).2.length
        + (if (NodeIterator.advance node_iterator.whatToShow l).1.isSome then 1 else 0)
        ≤ l.length := by
    intro l
    induction l with
    | nil => simp [NodeIterator.advance]
    | cons q rest ih =>
      unfold NodeIterator.advance
      split
      · simp
      · simp only [List.length_cons]; omega
  have h1 := h node_iterator.pending
  simp only [NodeIterator.nextNode, Option.isSome_some, if_true]
  omega

/-- Function `xmlFindNodes` (lines 61-83): empty for a null document, otherwise the
result of the loop over an element iterator on the document. -/
def xmlFindNodes (p_xml_document : Option Document) (attr : XMLAttribute) : List NodePtr :=
  match p_xml_document with
  | none => []
  | some doc =>
      xmlFindNodesLoop attr (NodeIterator.create doc.toPtr SHOW_ELEMENT).nextNode.1
        (NodeIterator.create doc.toPtr SHOW_ELEMENT).nextNode.2 []

/-! ## The class TriBool of rws_common.h -/

/-- The enum `TriBool::Values` of rws_common.h. The enum is unscoped and has no fixed
underlying type; with the enumerators 0, 1 and 2 its values are the integers 0 to 3.
The value 3 names no enumerator, but `static_cast<Values>(3)` is a value of the type and
the class stores it unchecked: it is the constructor `UNNAMED_3`. -/
inductive TriBool.Values where
  | UNKNOWN_VALUE
  | TRUE_VALUE
  | FALSE_VALUE
  | UNNAMED_3
  deriving DecidableEq, Repr

/-- The integer a value of the enum stands for. -/
def TriBool.Values.toNat : TriBool.Values → Nat
  | .UNKNOWN_VALUE => 0
  | .TRUE_VALUE => 1
  | .FALSE_VALUE => 2
  | .UNNAMED_3 => 3

/-- The class `TriBool` of rws_common.h: its only member is the private `value`. -/
structure TriBool where
  value : TriBool.Values
  deriving DecidableEq, Repr

/-- Constructor `TriBool()`. -/
def TriBool.new : TriBool := ⟨.UNKNOWN_VALUE⟩

/-- Constructor `TriBool(const Values initial_value)`. -/
def TriBool.ofValues (initial_value : TriBool.Values) : TriBool := ⟨initial_value⟩

/-- Constructor `TriBool(const bool initial_value)`. -/
def TriBool.ofBool (initial_value : Bool) : TriBool :=
  ⟨if initial_value then .TRUE_VALUE else .FALSE_VALUE⟩

/-- Operator `operator=(const TriBool& other)`: the object after the assignment. When
`other` is the object itself nothing is written, which leaves the same value. -/
def TriBool.assign (_self other : TriBool) : TriBool := ⟨other.value⟩

/-- Operator `operator=(const Values& rhs)`: the object after the assignment. -/
def TriBool.assignValues (_self : TriBool) (rhs : TriBool.Values) : TriBool := ⟨rhs⟩

/-- Operator `operator=(const bool& rhs)`: the object after the assignment. -/
def TriBool.assignBool (_self : TriBool) (rhs : Bool) : TriBool :=
  ⟨if rhs then .TRUE_VALUE else .FALSE_VALUE⟩

/-- Operator `operator==(const TriBool& rhs)`. -/
def TriBool.eq (self rhs : TriBool) : Bool := self.value == rhs.value

/-- Operator `operator==(const Values& rhs)`. -/
def TriBool.eqValues (self : TriBool) (rhs : TriBool.Values) : Bool := self.value == rhs

/-- Operator `operator!=(const TriBool& rhs)`. -/
def TriBool.ne (self rhs : TriBool) : Bool := self.value != rhs.value

/-- Operator `operator!=(const Values& rhs)`. -/
def TriBool.neValues (self : TriBool) (rhs : TriBool.Values) : Bool := self.value != rhs

/-- Method `isUnknown()`. -/
def TriBool.isUnknown (self : TriBool) : Bool := self.value == .UNKNOWN_VALUE

/-- Method `isTrue()`. -/
def TriBool.isTrue (self : TriBool) : Bool := self.value == .TRUE_VALUE

/-- Method `isFalse()`. -/
def TriBool.isFalse (self : TriBool) : Bool := self.value == .FALSE_VALUE

/-- Method `toString()`. -/
def TriBool.toString (self : TriBool) : String :=
  if self.isUnknown then "unknown" else (if self.isTrue then "true" else "false")

/-! ## The constants of SystemConstants::RWS in rws_common.h -/

/-- Constant `SystemConstants::RWS::Identifiers::CLASS`. -/
def SystemConstants.RWS.Identifiers.CLASS : String := "class"

/-- Constant `SystemConstants::RWS::Identifiers::CFG_IA_T_LI`. -/
def SystemConstants.RWS.Identifiers.CFG_IA_T_LI : String := "cfg-ia-t-li"

/-- Constant `SystemConstants::RWS::Identifiers::CTRLEXECSTATE`. -/
def SystemConstants.RWS.Identifiers.CTRLEXECSTATE : String := "ctrlexecstate"

/-- Constant `SystemConstants::RWS::Identifiers::CTRLSTATE`. -/
def SystemConstants.RWS.Identifiers.CTRLSTATE : String := "ctrlstate"

/-- Constant `SystemConstants::RWS::Identifiers::DATTYP`. -/
def SystemConstants.RWS.Identifiers.DATTYP : String := "dattyp"

/-- Constant `SystemConstants::RWS::Identifiers::IOS_SIGNAL`. -/
def SystemConstants.RWS.Identifiers.IOS_SIGNAL : String := "ios-signal"

/-- Constant `SystemConstants::RWS::Identifiers::MOTIONTASK`. -/
def SystemConstants.RWS.Identifiers.MOTIONTASK : String := "motiontask"

/-- Constant `SystemConstants::RWS::Identifiers::NAME`. -/
def SystemConstants.RWS.Identifiers.NAME : String := "name"

/-- Constant `SystemConstants::RWS::Identifiers::LVALUE`. -/
def SystemConstants.RWS.Identifiers.LVALUE : String := "lvalue"

/-- Constant `SystemConstants::RWS::Identifiers::OPMODE`. -/
def SystemConstants.RWS.Identifiers.OPMODE : String := "opmode"

/-- Constant `SystemConstants::RWS::Identifiers::RAP_MODULE_INFO_LI`. -/
def SystemConstants.RWS.Identifiers.RAP_MODULE_INFO_LI : String := "rap-module-info-li"

/-- Constant `SystemConstants::RWS::Identifiers::RAP_TASK_LI`. -/
def SystemConstants.RWS.Identifiers.RAP_TASK_LI : String := "rap-task-li"

/-- Constant `SystemConstants::RWS::Identifiers::RW_VERSION_NAME`. -/
def SystemConstants.RWS.Identifiers.RW_VERSION_NAME : String := "rwversionname"

/-- Constant `SystemConstants::RWS::Identifiers::STATE`. -/
def SystemConstants.RWS.Identifiers.STATE : String := "state"

/-- Constant `SystemConstants::RWS::Identifiers::SYS_SYSTEM_LI`. -/
def SystemConstants.RWS.Identifiers.SYS_SYSTEM_LI : String := "sys-system-li"

/-- Constant `SystemConstants::RWS::Identifiers::TYPE`. -/
def SystemConstants.RWS.Identifiers.TYPE : String := "type"

/-- Constant `SystemConstants::RWS::Identifiers::VALUE`. -/
def SystemConstants.RWS.Identifiers.VALUE : String := "value"

/-- Constant `SystemConstants::RWS::Identifiers::HOME_DIRECTORY`, without counterpart
among the predefined predicates. -/
def SystemConstants.RWS.Identifiers.HOME_DIRECTORY : String := "$home"

/-- Constant `SystemConstants::RWS::Identifiers::PRESENT_OPTIONS`, without counterpart
among the predefined predicates. -/
def SystemConstants.RWS.Identifiers.PRESENT_OPTIONS : String := "present_options"

/-- Constant `SystemConstants::RWS::Identifiers::SYS`, without counterpart among the
predefined predicates. -/
def SystemConstants.RWS.Identifiers.SYS : String := "sys"

/-- Constant `SystemConstants::RWS::XMLAttributes::CLASS_CFG_IA_T_LI`. -/
def SystemConstants.RWS.XMLAttributes.CLASS_CFG_IA_T_LI : XMLAttribute := ⟨"class", "cfg-ia-t-li"⟩

/-- Constant `SystemConstants::RWS::XMLAttributes::CLASS_CTRLEXECSTATE`. -/
def SystemConstants.RWS.XMLAttributes.CLASS_CTRLEXECSTATE : XMLAttribute :=
  ⟨"class", "ctrlexecstate"⟩

/-- Constant `SystemConstants::RWS::XMLAttributes::CLASS_CTRLSTATE`. -/
def SystemConstants.RWS.XMLAttributes.CLASS_CTRLSTATE : XMLAttribute := ⟨"class", "ctrlstate"⟩

/-- Constant `SystemConstants::RWS::XMLAttributes::CLASS_DATTYP`. -/
def SystemConstants.RWS.XMLAttributes.CLASS_DATTYP : XMLAttribute := ⟨"class", "dattyp"⟩

/-- Constant `SystemConstants::RWS::XMLAttributes::CLASS_IOS_SIGNAL`. -/
def SystemConstants.RWS.XMLAttributes.CLASS_IOS_SIGNAL : XMLAttribute := ⟨"class", "ios-signal"⟩

/-- Constant `SystemConstants::RWS::XMLAttributes::CLASS_LVALUE`. -/
def SystemConstants.RWS.XMLAttributes.CLASS_LVALUE : XMLAttribute := ⟨"class", "lvalue"⟩

/-- Constant `SystemConstants::RWS::XMLAttributes::CLASS_MOTIONTASK`. -/
def SystemConstants.RWS.XMLAttributes.CLASS_MOTIONTASK : XMLAttribute := ⟨"class", "motiontask"⟩

/-- Constant `SystemConstants::RWS::XMLAttributes::CLASS_NAME`. -/
def SystemConstants.RWS.XMLAttributes.CLASS_NAME : XMLAttribute := ⟨"class", "name"⟩

/-- Constant `SystemConstants::RWS::XMLAttributes::CLASS_OPMODE`. -/
def SystemConstants.RWS.XMLAttributes.CLASS_OPMODE : XMLAttribute := ⟨"class", "opmode"⟩

/-- Constant `SystemConstants::RWS::XMLAttributes::CLASS_RAP_MODULE_INFO_LI`. -/
def SystemConstants.RWS.XMLAttributes.CLASS_RAP_MODULE_INFO_LI : XMLAttribute :=
  ⟨"class", "rap-module-info-li"⟩

/-- Constant `SystemConstants::RWS::XMLAttributes::CLASS_RAP_TASK_LI`. -/
def SystemConstants.RWS.XMLAttributes.CLASS_RAP_TASK_LI : XMLAttribute := ⟨"class", "rap-task-li"⟩

/-- Constant `SystemConstants::RWS::XMLAttributes::CLASS_RW_VERSION_NAME`. -/
def SystemConstants.RWS.XMLAttributes.CLASS_RW_VERSION_NAME : XMLAttribute :=
  ⟨"class", "rwversionname"⟩

/-- Constant `SystemConstants::RWS::XMLAttributes::CLASS_STATE`. -/
def SystemConstants.RWS.XMLAttributes.CLASS_STATE : XMLAttribute := ⟨"class", "state"⟩

/-- Constant `SystemConstants::RWS::XMLAttributes::CLASS_SYS_SYSTEM_LI`. -/
def SystemConstants.RWS.XMLAttributes.CLASS_SYS_SYSTEM_LI : XMLAttribute :=
  ⟨"class", "sys-system-li"⟩

/-- Constant `SystemConstants::RWS::XMLAttributes::CLASS_TYPE`. -/
def SystemConstants.RWS.XMLAttributes.CLASS_TYPE : XMLAttribute := ⟨"class", "type"⟩

/-- Constant `SystemConstants::RWS::XMLAttributes::CLASS_VALUE`. -/
def SystemConstants.RWS.XMLAttributes.CLASS_VALUE : XMLAttribute := ⟨"class", "value"⟩

/-! ## The functions of rws_common.cpp, step by step -/

/-- The outcome of running a piece of the code step by step: an ordinary value, a
member call through a null pointer, or the exhaustion of the budget of loop rounds or
of nested calls given to the run. -/
inductive Outcome (α : Type) where
  | ok (value : α)
  | nullDereference
  | outOfFuel
  deriving DecidableEq, Repr

/-- Method `NodeList::item(index)`: the node at the index, null when the index is not
below `length()`. -/
def nodeListItem (list : List NodePtr) (index : Nat) : Option NodePtr := list[index]?

/-- Method `NamedNodeMap::item(index)`: the attribute node at the index, null when the
index is not below `length()`. -/
def namedNodeMapItem (map : List Attr) (index : Nat) : Option Attr := map[index]?

/-- Method `attributes()` with its null result: the attribute map of an element, null
for every other node. -/
def NodePtr.attributesOrNull (p : NodePtr) : Option (List Attr) :=
  match p.node with
  | .element _ attrs _ => some attrs
  | .text _ => none
  | .other _ _ _ => none

mutual
/-- The height of a tree: 0 for a node without children, otherwise one more than the
greatest height of a child. -/
def Node.height : Node → Nat
  | .element _ _ cs => Node.heightList cs
  | .text _ => 0
  | .other _ _ cs => Node.heightList cs
/-- The least number above the heights of the nodes of a list (0 for the empty list). -/
def Node.heightList : List Node → Nat
  | [] => 0
  | c :: rest => max (c.height + 1) (Node.heightList rest)
end

/-- The loop of `xmlNodeHasAttribute` (lines 145-153) step by step: `i` is the loop
index and `found` the flag; `rounds` bounds the number of rounds still allowed. Each
round fetches `item(i)` and calls `nodeName()` and `nodeValue()` through it. -/
def xmlNodeHasAttributeLoopChecked (attr : XMLAttribute) (p_attributes : List Attr) :
    Nat → Nat → Bool → Outcome Bool
  | 0, i, found =>
      if i < p_attributes.length && !found then .outOfFuel else .ok found
  | rounds + 1, i, found =>
      if i < p_attributes.length && !found then
        match namedNodeMapItem p_attributes i with
        | none => .nullDereference
        | some p_attribute =>
            xmlNodeHasAttributeLoopChecked attr p_attributes rounds (i + 1)
              (if p_attribute.nodeName == attr.name && p_attribute.nodeValue == attr.value
               then true else found)
      else .ok found

/-- Function `xmlNodeHasAttribute` (lines 137-157) step by step; the loop may run as
many rounds as the map has attributes. -/
def xmlNodeHasAttributeChecked (p_node : Option NodePtr) (attr : XMLAttribute) : Outcome Bool :=
  let found := attr.name.isEmpty && attr.value.isEmpty
  match p_node with
  | some p =>
      if !found && p.hasAttributes then
        match p.attributesOrNull with
        | none => .nullDereference
        | some p_attributes =>
            xmlNodeHasAttributeLoopChecked attr p_attributes p_attributes.length 0 found
      else .ok found
  | none => .ok found

/-- The test `p->nodeType() == TEXT_NODE && xmlNodeHasAttribute(p->parentNode(), attribute)`
of lines 104 and 119 step by step: the second operand is evaluated only when the first
is true. -/
def isTextWithAttributeChecked (p : NodePtr) (attr : XMLAttribute) : Outcome Bool :=
  if p.nodeType == NodeType.TEXT_NODE then xmlNodeHasAttributeChecked p.parentNode attr
  else .ok false

/-- The child loop of `xmlFindTextContent` (lines 115-129) step by step: `i` is the loop
index, `found` and `result` the variables of the code, `rounds` the number of rounds
still allowed and `recurse` the nested call of the node entry. Each round fetches
`item(i)` and calls `nodeType()` through it. -/
def xmlFindTextContentLoopChecked (recurse : Option NodePtr → Outcome String)
    (attr : XMLAttribute) (p_children : List NodePtr) :
    Nat → Nat → Bool → String → Outcome String
  | 0, i, found, result =>
      if i < p_children.length && !found then .outOfFuel else .ok result
  | rounds + 1, i, found, result =>
      if i < p_children.length && !found then
        match nodeListItem p_children i with
        | none => .nullDereference
        | some p_child =>
            match isTextWithAttributeChecked p_child attr with
            | .ok true =>
                xmlFindTextContentLoopChecked recurse attr p_children rounds (i + 1) true
                  p_child.nodeValue
            | .ok false =>
                match recurse (some p_child) with
                | .ok r =>
                    xmlFindTextContentLoopChecked recurse attr p_children rounds (i + 1)
                      (!r.isEmpty) r
                | .nullDereference => .nullDereference
                | .outOfFuel => .outOfFuel
            | .nullDereference => .nullDereference
            | .outOfFuel => .outOfFuel
      else .ok result

/-- The node entry of `xmlFindTextContent` (lines 98-135) step by step; `depth` bounds
the number of nested calls of the node entry still allowed, and the child loop may run
as many rounds as the node has children. -/
def xmlFindTextContentChecked (attr : XMLAttribute) : Nat → Option NodePtr → Outcome String
  | _, none => .ok ""
  | 0, some _ => .outOfFuel
  | depth + 1, some p =>
      match isTextWithAttributeChecked p attr with
      | .ok true => .ok p.nodeValue
      | .ok false =>
          if p.hasChildNodes then
            xmlFindTextContentLoopChecked (xmlFindTextContentChecked attr depth) attr
              p.childNodes p.childNodes.length 0 false ""
          else .ok ""
      | .nullDereference => .nullDereference
      | .outOfFuel => .outOfFuel

/-- The whole-document entry of `xmlFindTextContent` (lines 85-96) step by step. -/
def xmlFindTextContentDocumentChecked (attr : XMLAttribute) (depth : Nat)
    (p_xml_document : Option Document) : Outcome String :=
  match p_xml_document with
  | none => .ok ""
  | some doc =>
      xmlFindTextContentChecked attr depth
        (NodeIterator.create doc.toPtr SHOW_ELEMENT).nextNode.1

/-- The loop of `xmlFindNodes` (lines 69-79) step by step; `rounds` bounds the number of
rounds still allowed. -/
def xmlFindNodesLoopChecked (attr : XMLAttribute) :
    Nat → Option NodePtr → NodeIterator → List NodePtr → Outcome (List NodePtr)
  | _, none, _, result => .ok result
  | 0, some _, _, _ => .outOfFuel
  | rounds + 1, some p, node_iterator, result =>
      match xmlNodeHasAttributeChecked (some p) attr with
      | .ok b =>
          xmlFindNodesLoopChecked attr rounds node_iterator.nextNode.1 node_iterator.nextNode.2
            (if b then result ++ [p] else result)
      | .nullDereference => .nullDereference
      | .outOfFuel => .outOfFuel

/-- Function `xmlFindNodes` (lines 61-83) step by step; the loop may run as many rounds
as the document has nodes. -/
def xmlFindNodesChecked (p_xml_document : Option Document) (attr : XMLAttribute) :
    Outcome (List NodePtr) :=
  match p_xml_document with
  | none => .ok []
  | some doc =>
      xmlFindNodesLoopChecked attr (NodeIterator.create doc.toPtr SHOW_ELEMENT).pending.length
        (NodeIterator.create doc.toPtr SHOW_ELEMENT).nextNode.1
        (NodeIterator.create doc.toPtr SHOW_ELEMENT).nextNode.2 []

/-! ## Vocabulary of the specification -/

/-- Whether an attribute node has the requested name and value (exact string equality). -/
def attrMatches (attr : XMLAttribute) (a : Attr) : Bool :=
  a.nodeName == attr.name && a.nodeValue == attr.value

/-- The wildcard predicate: name and value are both the empty string. -/
def isWildcard (attr : XMLAttribute) : Bool := attr.name.isEmpty && attr.value.isEmpty

/-- A text node whose immediate parent passes the attribute test. -/
def isMatchingText (attr : XMLAttribute) (q : NodePtr) : Bool :=
  q.nodeType == NodeType.TEXT_NODE && xmlNodeHasAttribute q.parentNode attr

/-- The child loop of the text search read over the child pointers of a node: the value
of the first child that is a matching text node or whose own search is non-empty. -/
def searchChildren (attr : XMLAttribute) : List NodePtr → String
  | [] => ""
  | c :: rest =>
      if isMatchingText attr c then c.nodeValue
      else if xmlFindTextContent (some c) attr = "" then searchChildren attr rest
      else xmlFindTextContent (some c) attr

/-- The first element node of a document in document order (null when the document
holds no element). -/
def firstElement (doc : Document) : Option NodePtr :=
  (documentOrder doc.toPtr).find? (fun q => q.nodeType == NodeType.ELEMENT_NODE)

/-- The element nodes of a document in document order; none for an absent document. -/
def elementsInDocumentOrder (p_xml_document : Option Document) : List NodePtr :=
  match p_xml_document with
  | none => []
  | some doc => (documentOrder doc.toPtr).filter (fun q => q.nodeType == NodeType.ELEMENT_NODE)

/-- The first text node, in document order within the subtree of `p`, whose immediate
parent passes the attribute test (none when the subtree has no such text node). -/
def firstMatchingText (attr : XMLAttribute) (p : NodePtr) : Option NodePtr :=
  (documentOrder p).find? (isMatchingText attr)

/-- The value the first matching text node of the subtree would give: its text value,
or the empty string when the subtree has no matching text node. -/
def firstMatchingTextValue (attr : XMLAttribute) (p : NodePtr) : String :=
  match firstMatchingText attr p with
  | some q => q.nodeValue
  | none => ""

/-- The pointer to the single text child of a node whose only child is that text node. -/
def textChildPtr (p : NodePtr) (v : String) : NodePtr := ⟨.text v, (0, p.node) :: p.up⟩

/-- The situation of the claim about two matching elements: X1 precedes X2 in the
document order of the document, their subtrees are disjoint, both are elements that pass
the attribute test, no other element of the document passes it, and each has a text
node as its only child, with the distinct values `t1` and `t2`. -/
def TwoMatchingElements (doc : Document) (attr : XMLAttribute) (X1 X2 : NodePtr)
    (t1 t2 : String) : Prop :=
  (∃ l1 l2 l3, documentOrder doc.toPtr = l1 ++ X1 :: (l2 ++ X2 :: l3))
    ∧ (X1 ∉ documentOrder X2 ∧ X2 ∉ documentOrder X1)
    ∧ X1.nodeType = NodeType.ELEMENT_NODE ∧ X2.nodeType = NodeType.ELEMENT_NODE
    ∧ xmlNodeHasAttribute (some X1) attr = true ∧ xmlNodeHasAttribute (some X2) attr = true
    ∧ (∀ q ∈ documentOrder doc.toPtr, q.nodeType = NodeType.ELEMENT_NODE →
        xmlNodeHasAttribute (some q) attr = true → q = X1 ∨ q = X2)
    ∧ X1.node.childNodes = [.text t1] ∧ X2.node.childNodes = [.text t2]
    ∧ t1 ≠ t2

/-- The height of the tree below a pointer, 0 for the null pointer. -/
def heightOrZero (p_node : Option NodePtr) : Nat :=
  match p_node with
  | none => 0
  | some p => p.node.height

/-- Exactly one of `isUnknown()`, `isTrue()` and `isFalse()` is true. -/
def TriBool.ExactlyOneState (t : TriBool) : Prop :=
  (t.isUnknown = true ∧ t.isTrue = false ∧ t.isFalse = false)
    ∨ (t.isUnknown = false ∧ t.isTrue = true ∧ t.isFalse = false)
    ∨ (t.isUnknown = false ∧ t.isTrue = false ∧ t.isFalse = true)

/-- Whether a value of the enum is one of the three enumerators `UNKNOWN_VALUE`,
`TRUE_VALUE` and `FALSE_VALUE`. -/
def TriBool.Values.isEnumerator : TriBool.Values → Bool
  | .UNKNOWN_VALUE => true
  | .TRUE_VALUE => true
  | .FALSE_VALUE => true
  | .UNNAMED_3 => false

/-- Two values hold the same one of the three states Unknown, True and False. -/
def TriBool.SameState (a b : TriBool) : Prop :=
  (a.isUnknown = true ∧ b.isUnknown = true) ∨ (a.isTrue = true ∧ b.isTrue = true)
    ∨ (a.isFalse = true ∧ b.isFalse = true)

/-- The predefined predicates of `SystemConstants::RWS::XMLAttributes`, each paired with
the constant of `SystemConstants::RWS::Identifiers` of the same name without `CLASS_`. -/
def predefinedPredicates : List (XMLAttribute × String) :=
  [(SystemConstants.RWS.XMLAttributes.CLASS_CFG_IA_T_LI,
      SystemConstants.RWS.Identifiers.CFG_IA_T_LI),
   (SystemConstants.RWS.XMLAttributes.CLASS_CTRLEXECSTATE,
      SystemConstants.RWS.Identifiers.CTRLEXECSTATE),
   (SystemConstants.RWS.XMLAttributes.CLASS_CTRLSTATE,
      SystemConstants.RWS.Identifiers.CTRLSTATE),
   (SystemConstants.RWS.XMLAttributes.CLASS_DATTYP, SystemConstants.RWS.Identifiers.DATTYP),
   (SystemConstants.RWS.XMLAttributes.CLASS_IOS_SIGNAL,
      SystemConstants.RWS.Identifiers.IOS_SIGNAL),
   (SystemConstants.RWS.XMLAttributes.CLASS_LVALUE, SystemConstants.RWS.Identifiers.LVALUE),
   (SystemConstants.RWS.XMLAttributes.CLASS_MOTIONTASK,
      SystemConstants.RWS.Identifiers.MOTIONTASK),
   (SystemConstants.RWS.XMLAttributes.CLASS_NAME, SystemConstants.RWS.Identifiers.NAME),
   (SystemConstants.RWS.XMLAttributes.CLASS_OPMODE, SystemConstants.RWS.Identifiers.OPMODE),
   (SystemConstants.RWS.XMLAttributes.CLASS_RAP_MODULE_INFO_LI,
      SystemConstants.RWS.Identifiers.RAP_MODULE_INFO_LI),
   (SystemConstants.RWS.XMLAttributes.CLASS_RAP_TASK_LI,
      SystemConstants.RWS.Identifiers.RAP_TASK_LI),
   (SystemConstants.RWS.XMLAttributes.CLASS_RW_VERSION_NAME,
      SystemConstants.RWS.Identifiers.RW_VERSION_NAME),
   (SystemConstants.RWS.XMLAttributes.CLASS_STATE, SystemConstants.RWS.Identifiers.STATE),
   (SystemConstants.RWS.XMLAttributes.CLASS_SYS_SYSTEM_LI,
      SystemConstants.RWS.Identifiers.SYS_SYSTEM_LI),
   (SystemConstants.RWS.XMLAttributes.CLASS_TYPE, SystemConstants.RWS.Identifiers.TYPE),
   (SystemConstants.RWS.XMLAttributes.CLASS_VALUE, SystemConstants.RWS.Identifiers.VALUE)]

/-! ## Example trees and documents -/

/-- A tree `<r><a class="x"></a><b class="x">second</b></r>` in which the element `a`
holds an empty text node. -/
def emptyFirstTree : Node :=
  .element "r" []
    [.element "a" [⟨"class", "x"⟩] [.text ""], .element "b" [⟨"class", "x"⟩] [.text "second"]]

/-- A tree `<r><a class="x">first</a><b class="x">second</b></r>`. -/
def firstSecondTree : Node :=
  .element "r" []
    [.element "a" [⟨"class", "x"⟩] [.text "first"],
     .element "b" [⟨"class", "x"⟩] [.text "second"]]

/-- A document holding a comment and a text node but no element. -/
def noElementDocument : Document :=
  ⟨[.other .COMMENT "c" [], .text "t"]⟩

/-- A tree `<r><e1 class="a"/><x/><e2 class="a"/></r>`. -/
def twoMatchesRoot : Node :=
  .element "r" []
    [.element "e1" [⟨"class", "a"⟩] [], .element "x" [] [], .element "e2" [⟨"class", "a"⟩] []]

/-- A document `<r><e1 class="a"/><x/><e2 class="a"/></r>`. -/
def twoMatchesDocument : Document := ⟨[twoMatchesRoot]⟩

/-- The pointer to the child of index `i` of the root element of `twoMatchesDocument`,
given the node `n` found there. -/
def twoMatchesChild (i : Nat) (n : Node) : NodePtr :=
  ⟨n, [(i, twoMatchesRoot), (0, twoMatchesDocument.toNode)]⟩

/-- A document `<a>hello</a>`, none of whose nodes carries an attribute. -/
def helloDocument : Document := ⟨[.element "a" [] [.text "hello"]]⟩

/-- A document `<r><e class="a">t</e></r>`. -/
def classADocument : Document := ⟨[.element "r" [] [.element "e" [⟨"class", "a"⟩] [.text "t"]]]⟩

/-- A document with two top-level elements, `<a/>` followed by
`<e class="ctrlstate">motoron</e>`. -/
def twoRootsDocument : Document :=
  ⟨[.element "a" [] [], .element "e" [⟨"class", "ctrlstate"⟩] [.text "motoron"]]⟩

/-- The pointer to the second top-level element of `twoRootsDocument`. -/
def twoRootsSecond : NodePtr :=
  ⟨.element "e" [⟨"class", "ctrlstate"⟩] [.text "motoron"], [(1, twoRootsDocument.toNode)]⟩

/-- A document `<r><x/><e class="ctrlstate">motoron</e></r>`. -/
def ctrlstateDocument : Document :=
  ⟨[.element "r" [] [.element "x" [] [], .element "e" [⟨"class", "ctrlstate"⟩] [.text "motoron"]]]⟩

/-- The pointer to the root element of `ctrlstateDocument`. -/
def ctrlstateRoot : NodePtr :=
  ⟨.element "r" [] [.element "x" [] [], .element "e" [⟨"class", "ctrlstate"⟩] [.text "motoron"]],
   [(0, ctrlstateDocument.toNode)]⟩

/-- The pointer to the element with `class="ctrlstate"` of `ctrlstateDocument`. -/
def ctrlstateElement : NodePtr :=
  ⟨.element "e" [⟨"class", "ctrlstate"⟩] [.text "motoron"],
   (1, ctrlstateRoot.node) :: ctrlstateRoot.up⟩

/-- The document `<r><a class="x"></a><b class="x">second</b></r>` in which the element
`a` holds an empty text node. -/
def emptyFirstDocument : Document := ⟨[emptyFirstTree]⟩

/-- The pointer to the element `a` of `emptyFirstDocument`. -/
def emptyFirstA : NodePtr :=
  ⟨.element "a" [⟨"class", "x"⟩] [.text ""], [(0, emptyFirstTree), (0, emptyFirstDocument.toNode)]⟩

/-- The pointer to the element `b` of `emptyFirstDocument`. -/
def emptyFirstB : NodePtr :=
  ⟨.element "b" [⟨"class", "x"⟩] [.text "second"],
   [(1, emptyFirstTree), (0, emptyFirstDocument.toNode)]⟩

/-- A document with three top-level elements: `<c/>`, `<a class="x">first</a>` and
`<b class="x">second</b>`. -/
def threeRootsDocument : Document :=
  ⟨[.element "c" [] [], .element "a" [⟨"class", "x"⟩] [.text "first"],
    .element "b" [⟨"class", "x"⟩] [.text "second"]]⟩

/-- The pointer to the element `a` of `threeRootsDocument`. -/
def threeRootsA : NodePtr :=
  ⟨.element "a" [⟨"class", "x"⟩] [.text "first"], [(1, threeRootsDocument.toNode)]⟩

/-- The pointer to the element `b` of `threeRootsDocument`. -/
def threeRootsB : NodePtr :=
  ⟨.element "b" [⟨"class", "x"⟩] [.text "second"], [(2, threeRootsDocument.toNode)]⟩

/-- The document `<r><a class="x">first</a><b class="x">second</b></r>`. -/
def firstSecondDocument : Document := ⟨[firstSecondTree]⟩

/-- The pointer to the element `a` of `firstSecondDocument`. -/
def firstSecondA : NodePtr :=
  ⟨.element "a" [⟨"class", "x"⟩] [.text "first"],
   [(0, firstSecondTree), (0, firstSecondDocument.toNode)]⟩

/-- The pointer to the element `b` of `firstSecondDocument`. -/
def firstSecondB : NodePtr :=
  ⟨.element "b" [⟨"class", "x"⟩] [.text "second"],
   [(1, firstSecondTree), (0, firstSecondDocument.toNode)]⟩

/-- A document whose document node holds a document type node and then the root element
`<r class="x">hit</r>`; the document type holds an entity node whose replacement content
is the element `<e/>`. -/
def entityDocument : Document :=
  ⟨[.other .DOCUMENT_TYPE "" [.other .ENTITY "" [.element "e" [] []]],
    .element "r" [⟨"class", "x"⟩] [.text "hit"]]⟩

/-- The pointer to the root element of `entityDocument`. -/
def entityDocumentRoot : NodePtr :=
  ⟨.element "r" [⟨"class", "x"⟩] [.text "hit"], [(1, entityDocument.toNode)]⟩

/-- A document whose document node holds a comment, the root element
`<r><e class="ctrlstate">motoron</e></r>` and another comment. -/
def commentedDocument : Document :=
  ⟨[.other .COMMENT "before" [],
    .element "r" [] [.element "e" [⟨"class", "ctrlstate"⟩] [.text "motoron"]],
    .other .COMMENT "after" []]⟩

/-- The pointer to the root element of `commentedDocument`. -/
def commentedDocumentRoot : NodePtr :=
  ⟨.element "r" [] [.element "e" [⟨"class", "ctrlstate"⟩] [.text "motoron"]],
   [(1, commentedDocument.toNode)]⟩

/-! ## Structure of the tree model -/

theorem mem_childPtrs {parent : Node} {up : List (Nat × Node)} {q : NodePtr} :
    ∀ {i : Nat} {cs : List Node}, q ∈ childPtrs parent up i cs →
      ∃ j c, i ≤ j ∧ c ∈ cs ∧ q = ⟨c, (j, parent) :: up⟩ := by
  intro i cs
  induction cs generalizing i with
  | nil => intro h; simp [childPtrs] at h
  | cons c rest ih =>
    intro h
    simp only [childPtrs, List.mem_cons] at h
    rcases h with rfl | h
    · exact ⟨i, c, le_refl _, by simp, rfl⟩
    · obtain ⟨j, c', hj, hc', rfl⟩ := ih h
      exact ⟨j, c', by omega, by simp [hc'], rfl⟩

theorem documentOrderList_eq_flatMap (parent : Node) (up : List (Nat × Node)) (i : Nat)
    (cs : List Node) :
    documentOrderList parent up i cs = (childPtrs parent up i cs).flatMap documentOrder := by
  induction cs generalizing i with
  | nil => simp [documentOrderList, childPtrs]
  | cons c rest ih =>
    simp [documentOrderList, childPtrs, ih, documentOrder]

theorem documentOrder_eq (p : NodePtr) :
    documentOrder p = p :: p.childNodes.flatMap documentOrder := by
  obtain ⟨n, up⟩ := p
  cases n <;>
  simp [documentOrder, NodePtr.childNodes, documentOrderNode,
    documentOrderList_eq_flatMap, Node.childNodes, childPtrs]

theorem NodePtr.parentNode_of_mem_childNodes {p c : NodePtr} (h : c ∈ p.childNodes) :
    c.parentNode = some p := by
  obtain ⟨j, n, _, _, rfl⟩ := mem_childPtrs h
  simp [NodePtr.parentNode]

theorem NodePtr.up_of_mem_childNodes {p c : NodePtr} (h : c ∈ p.childNodes) :
    ∃ j, c.up = (j, p.node) :: p.up := by
  obtain ⟨j, n, _, _, rfl⟩ := mem_childPtrs h
  exact ⟨j, rfl⟩

mutual
theorem Node.induct_aux {P : Node → Prop} (h : ∀ n, (∀ c ∈ n.childNodes, P c) → P n) :
    (n : Node) → P n
  | .text d => h (.text d) (by intro c hc; simp [Node.childNodes] at hc)
  | .element nm attrs cs => h (.element nm attrs cs) (Node.induct_list h cs)
  | .other k v cs => h (.other k v cs) (Node.induct_list h cs)
theorem Node.induct_list {P : Node → Prop} (h : ∀ n, (∀ c ∈ n.childNodes, P c) → P n) :
    (cs : List Node) → ∀ c ∈ cs, P c
  | [] => by intro c hc; simp at hc
  | c :: rest => by
      intro x hx
      rcases List.mem_cons.mp hx with rfl | hx
      · exact Node.induct_aux h x
      · exact Node.induct_list h rest x hx
end

/-- Induction over the pointers of a tree: a property holds of every pointer when it
holds of a pointer as soon as it holds of all its child pointers. -/
theorem NodePtr.induct {P : NodePtr → Prop}
    (h : ∀ p, (∀ c ∈ p.childNodes, P c) → P p) (p : NodePtr) : P p := by
  obtain ⟨n, up⟩ := p
  revert up
  refine Node.induct_aux (P := fun n => ∀ up, P ⟨n, up⟩) ?_ n
  intro n ih up
  apply h
  intro c hc
  obtain ⟨j, m, _, hm, rfl⟩ := mem_childPtrs hc
  exact ih m hm _

theorem up_suffix_of_mem_documentOrder (p : NodePtr) :
    ∀ q ∈ documentOrder p, p.up <:+ q.up := by
  induction p using NodePtr.induct with
  | h p ih =>
    intro q hq
    rw [documentOrder_eq] at hq
    rcases List.mem_cons.mp hq with rfl | hq
    · exact List.suffix_refl _
    · obtain ⟨c, hc, hqc⟩ := List.mem_flatMap.mp hq
      obtain ⟨j, hj⟩ := NodePtr.up_of_mem_childNodes hc
      have := ih c hc q hqc
      rw [hj] at this
      exact (List.suffix_cons _ _).trans this

theorem documentOrder_nodup (p : NodePtr) : (documentOrder p).Nodup := by
  induction p using NodePtr.induct with
  | h p ih =>
    rw [documentOrder_eq, List.nodup_cons]
    constructor
    · intro hq
      obtain ⟨c, hc, hqc⟩ := List.mem_flatMap.mp hq
      obtain ⟨j, hj⟩ := NodePtr.up_of_mem_childNodes hc
      have := (up_suffix_of_mem_documentOrder c p hqc).length_le
      rw [hj] at this
      simp at this
    · rw [List.nodup_flatMap]
      refine ⟨ih, ?_⟩
      unfold NodePtr.childNodes
      generalize 0 = i
      generalize p.node.childNodes = cs
      induction cs generalizing i with
      | nil => simp [childPtrs]
      | cons c rest ihc =>
        simp only [childPtrs, List.pairwise_cons]
        refine ⟨?_, ihc (i + 1)⟩
        intro b hb
        obtain ⟨j, m, hj, _, rfl⟩ := mem_childPtrs hb
        intro q hq1 hq2
        have h1 := up_suffix_of_mem_documentOrder _ q hq1
        have h2 := up_suffix_of_mem_documentOrder _ q hq2
        simp only at h1 h2
        have h3 : (i, p.node) :: p.up = (j, p.node) :: p.up := by
          rcases List.suffix_or_suffix_of_suffix h1 h2 with h | h
          · exact h.eq_of_length (by simp)
          · exact (h.eq_of_length (by simp)).symm
        simp at h3
        omega

/-! ## The attribute test -/

theorem xmlNodeHasAttributeLoop_true (attr : XMLAttribute) (l : List Attr) :
    xmlNodeHasAttributeLoop attr l true = true := by
  cases l <;> simp [xmlNodeHasAttributeLoop]

theorem xmlNodeHasAttributeLoop_false (attr : XMLAttribute) (l : List Attr) :
    xmlNodeHasAttributeLoop attr l false = l.any (attrMatches attr) := by
  induction l with
  | nil => simp [xmlNodeHasAttributeLoop]
  | cons a rest ih =>
    simp only [xmlNodeHasAttributeLoop, List.any_cons, attrMatches]
    split
    · rename_i h
      simp [h, xmlNodeHasAttributeLoop_true]
    · rename_i h
      simp only [Bool.not_eq_true] at h
      simp [h, ih, attrMatches]

theorem isWildcard_iff (attr : XMLAttribute) :
    isWildcard attr = true ↔ attr.name = "" ∧ attr.value = "" := by
  simp [isWildcard, String.isEmpty_iff]

theorem xmlNodeHasAttribute_some (p : NodePtr) (attr : XMLAttribute) :
    xmlNodeHasAttribute (some p) attr
      = (isWildcard attr || p.node.attributes.any (attrMatches attr)) := by
  unfold xmlNodeHasAttribute isWildcard
  cases hw : (attr.name.isEmpty && attr.value.isEmpty)
  · cases ha : p.node.attributes with
    | nil => simp [NodePtr.hasAttributes, ha]
    | cons a rest =>
      simp [NodePtr.hasAttributes, NodePtr.attributes, ha, xmlNodeHasAttributeLoop_false]
  · simp

theorem xmlNodeHasAttribute_none (attr : XMLAttribute) :
    xmlNodeHasAttribute none attr = isWildcard attr := by
  simp [xmlNodeHasAttribute, isWildcard]

/-! ## The text search, unfolded -/

theorem OtherKind.nodeType_ne_text (k : OtherKind) : k.nodeType ≠ NodeType.TEXT_NODE := by
  cases k <;> simp [OtherKind.nodeType]

theorem OtherKind.nodeType_ne_element (k : OtherKind) : k.nodeType ≠ NodeType.ELEMENT_NODE := by
  cases k <;> simp [OtherKind.nodeType]

theorem Node.childNodes_of_text {n : Node} (h : n.nodeType = NodeType.TEXT_NODE) :
    n.childNodes = [] := by
  cases n with
  | text d => rfl
  | element nm attrs cs => simp [Node.nodeType] at h
  | other k v cs => exact absurd h (OtherKind.nodeType_ne_text k)

theorem documentOrderNode_eq (up : List (Nat × Node)) (n : Node) :
    documentOrderNode up n = ⟨n, up⟩ :: documentOrderList n up 0 n.childNodes := by
  cases n <;> simp [documentOrderNode, documentOrderList, Node.childNodes]

theorem xmlFindTextContentLoop_found (attr : XMLAttribute) (parent : Node)
    (up : List (Nat × Node)) (i : Nat) (cs : List Node) (r : String) :
    xmlFindTextContentLoop attr parent up i cs true r = r := by
  cases cs <;> simp [xmlFindTextContentLoop]

theorem xmlFindTextContentLoop_nil (attr : XMLAttribute) (parent : Node)
    (up : List (Nat × Node)) (i : Nat) (f : Bool) (r : String) :
    xmlFindTextContentLoop attr parent up i [] f r = r := by
  simp [xmlFindTextContentLoop]

theorem xmlFindTextContentLoop_cons (attr : XMLAttribute) (parent : Node)
    (up : List (Nat × Node)) (i : Nat) (c : Node) (rest : List Node) (r : String) :
    xmlFindTextContentLoop attr parent up i (c :: rest) false r
      = if isMatchingText attr ⟨c, (i, parent) :: up⟩ then c.nodeValue
        else if xmlFindTextContentNode attr ((i, parent) :: up) c = "" then
          xmlFindTextContentLoop attr parent up (i + 1) rest false ""
        else xmlFindTextContentNode attr ((i, parent) :: up) c := by
  rw [xmlFindTextContentLoop]
  simp only [isMatchingText]
  split
  · simp [xmlFindTextContentLoop_found, NodePtr.nodeValue]
  · by_cases h : xmlFindTextContentNode attr ((i, parent) :: up) c = ""
    · have h0 : ("" : String).isEmpty = true := by decide
      simp [h, h0]
    · have : (xmlFindTextContentNode attr ((i, parent) :: up) c).isEmpty = false := by
        rw [← Bool.not_eq_true, String.isEmpty_iff]; exact h
      simp [h, this, xmlFindTextContentLoop_found]

theorem xmlFindTextContentNode_eq (attr : XMLAttribute) (up : List (Nat × Node)) (n : Node) :
    xmlFindTextContentNode attr up n
      = if isMatchingText attr ⟨n, up⟩ then n.nodeValue
        else xmlFindTextContentLoop attr n up 0 n.childNodes false "" := by
  cases n with
  | text d =>
    simp [xmlFindTextContentNode, isMatchingText, NodePtr.nodeType, Node.nodeType,
      Node.nodeValue, Node.childNodes, xmlFindTextContentLoop_nil]
  | element nm attrs cs =>
    cases cs <;>
    simp [xmlFindTextContentNode, isMatchingText, NodePtr.nodeType, Node.nodeType,
      Node.childNodes, xmlFindTextContentLoop_nil, NodePtr.hasChildNodes]
  | other k v cs =>
    have := OtherKind.nodeType_ne_text k
    cases cs <;>
    simp [xmlFindTextContentNode, isMatchingText, NodePtr.nodeType, Node.nodeType,
      Node.childNodes, xmlFindTextContentLoop_nil, NodePtr.hasChildNodes, this]

/-! ## The text search: soundness and first match -/

theorem xmlFindTextContentLoop_eq_searchChildren (attr : XMLAttribute) (parent : Node)
    (up : List (Nat × Node)) (i : Nat) (cs : List Node) :
    xmlFindTextContentLoop attr parent up i cs false ""
      = searchChildren attr (childPtrs parent up i cs) := by
  induction cs generalizing i with
  | nil => simp [xmlFindTextContentLoop_nil, childPtrs, searchChildren]
  | cons c rest ih =>
    rw [xmlFindTextContentLoop_cons, childPtrs, searchChildren, ih]
    simp [xmlFindTextContent, NodePtr.nodeValue]

theorem xmlFindTextContent_some (p : NodePtr) (attr : XMLAttribute) :
    xmlFindTextContent (some p) attr
      = if isMatchingText attr p then p.nodeValue else searchChildren attr p.childNodes := by
  simp only [xmlFindTextContent]
  rw [xmlFindTextContentNode_eq, xmlFindTextContentLoop_eq_searchChildren]
  rfl

theorem mem_documentOrder_self (p : NodePtr) : p ∈ documentOrder p := by
  rw [documentOrder_eq]; simp

theorem mem_documentOrder_of_child {p c q : NodePtr} (hc : c ∈ p.childNodes)
    (hq : q ∈ documentOrder c) : q ∈ documentOrder p := by
  rw [documentOrder_eq]
  exact List.mem_cons_of_mem _ (List.mem_flatMap.mpr ⟨c, hc, hq⟩)

theorem depth_of_mem_documentOrder {p q : NodePtr} (hq : q ∈ documentOrder p) :
    q = p ∨ p.up.length < q.up.length := by
  rw [documentOrder_eq] at hq
  rcases List.mem_cons.mp hq with h | h
  · exact Or.inl h
  · right
    obtain ⟨c, hc, hqc⟩ := List.mem_flatMap.mp h
    obtain ⟨j, hj⟩ := NodePtr.up_of_mem_childNodes hc
    have := (up_suffix_of_mem_documentOrder c q hqc).length_le
    rw [hj] at this
    simp at this
    omega

/-- Soundness of the search: a non-empty result is the value of a matching text node of
the subtree. -/
theorem xmlFindTextContent_sound (attr : XMLAttribute) (p : NodePtr) :
    xmlFindTextContent (some p) attr ≠ "" →
      ∃ q ∈ documentOrder p, isMatchingText attr q = true
        ∧ q.nodeValue = xmlFindTextContent (some p) attr := by
  induction p using NodePtr.induct with
  | h p ih =>
    rw [xmlFindTextContent_some]
    by_cases hp : isMatchingText attr p = true
    · intro _
      exact ⟨p, mem_documentOrder_self p, hp, by simp [hp]⟩
    · simp only [hp, if_false]
      have key : ∀ l : List NodePtr, (∀ c ∈ l, c ∈ p.childNodes) →
          searchChildren attr l ≠ "" →
          ∃ q ∈ documentOrder p, isMatchingText attr q = true
            ∧ q.nodeValue = searchChildren attr l := by
        intro l
        induction l with
        | nil => intro _ h; simp [searchChildren] at h
        | cons c rest ihl =>
          intro hl h
          have hc : c ∈ p.childNodes := hl c (List.mem_cons_self _ _)
          rw [searchChildren] at h ⊢
          by_cases hm : isMatchingText attr c = true
          · simp only [hm, if_true]
            exact ⟨c, mem_documentOrder_of_child hc (mem_documentOrder_self c), hm, rfl⟩
          · simp only [hm, if_false] at h ⊢
            by_cases he : xmlFindTextContent (some c) attr = ""
            · simp only [he, if_true] at h ⊢
              exact ihl (fun x hx => hl x (List.mem_cons_of_mem _ hx)) h
            · simp only [he, if_false]
              obtain ⟨q, hq, hqm, hqv⟩ := ih c hc he
              exact ⟨q, mem_documentOrder_of_child hc hq, hqm, hqv⟩
      exact key p.childNodes (fun c hc => hc)

/-- Without a matching text node in the subtree the search returns the empty string. -/
theorem xmlFindTextContent_eq_empty_of_no_match (attr : XMLAttribute) (p : NodePtr)
    (h : ∀ q ∈ documentOrder p, isMatchingText attr q = false) :
    xmlFindTextContent (some p) attr = "" := by
  by_contra hne
  obtain ⟨q, hq, hqm, _⟩ := xmlFindTextContent_sound attr p hne
  rw [h q hq] at hqm
  exact Bool.noConfusion hqm

/-- When the first matching text node of the subtree, in document order, has a non-empty
value or lies at most one level below the start node, the search returns its value. -/
theorem xmlFindTextContent_of_first_match (attr : XMLAttribute) (p : NodePtr) :
    ∀ q, (documentOrder p).find? (isMatchingText attr) = some q →
      (q.nodeValue ≠ "" ∨ q.up.length ≤ p.up.length + 1) →
      xmlFindTextContent (some p) attr = q.nodeValue := by
  induction p using NodePtr.induct with
  | h p ih =>
    intro q hfind hq
    rw [xmlFindTextContent_some]
    rw [documentOrder_eq, List.find?_cons] at hfind
    by_cases hp : isMatchingText attr p = true
    · simp only [hp] at hfind
      cases hfind
      simp [hp]
    · simp only [hp, if_false]
      simp only [Bool.not_eq_true] at hp
      simp only [hp] at hfind
      have key : ∀ l : List NodePtr, (∀ c ∈ l, c ∈ p.childNodes) →
          (l.flatMap documentOrder).find? (isMatchingText attr) = some q →
          searchChildren attr l = q.nodeValue := by
        intro l
        induction l with
        | nil => intro _ h; simp at h
        | cons c rest ihl =>
          intro hl h
          have hc : c ∈ p.childNodes := hl c (List.mem_cons_self _ _)
          rw [List.flatMap_cons, List.find?_append] at h
          rw [searchChildren]
          by_cases hm : isMatchingText attr c = true
          · rw [documentOrder_eq, List.find?_cons] at h
            simp only [hm, Option.or] at h
            cases h
            simp [hm]
          · simp only [hm, if_false]
            cases hfc : (documentOrder c).find? (isMatchingText attr) with
            | none =>
              have hnone : xmlFindTextContent (some c) attr = "" := by
                apply xmlFindTextContent_eq_empty_of_no_match
                intro x hx
                have := List.find?_eq_none.mp hfc x hx
                simpa using this
              simp only [hnone, if_true]
              rw [hfc] at h; simp only [Option.or] at h
              exact ihl (fun x hx => hl x (List.mem_cons_of_mem _ hx)) h
            | some q' =>
              rw [hfc] at h; simp only [Option.or] at h
              have hqq : q' = q := Option.some.inj h
              rw [← hqq] at hq ⊢
              have hq'mem : q' ∈ documentOrder c := List.mem_of_find?_eq_some hfc
              have hq'm : isMatchingText attr q' = true := List.find?_some hfc
              have hne : q' ≠ c := by
                rintro rfl; exact hm hq'm
              obtain ⟨j, hj⟩ := NodePtr.up_of_mem_childNodes hc
              have hdepth : c.up.length < q'.up.length := by
                rcases depth_of_mem_documentOrder hq'mem with h1 | h1
                · exact absurd h1 hne
                · exact h1
              have hval : q'.nodeValue ≠ "" := by
                rcases hq with h1 | h1
                · exact h1
                · rw [hj] at hdepth; simp at hdepth; omega
              have := ih c hc q' hfc (Or.inl hval)
              rw [this]
              simp [hval]
      exact key p.childNodes (fun c hc => hc) hfind

/-! ## The element iterator and xmlFindNodes -/

theorem NodeIterator.accept_SHOW_ELEMENT (p : NodePtr) :
    NodeIterator.accept SHOW_ELEMENT p = (p.nodeType == NodeType.ELEMENT_NODE) := by
  unfold NodeIterator.accept SHOW_ELEMENT
  cases p.nodeType <;> decide

theorem NodeIterator.advance_fst (w : Nat) (l : List NodePtr) :
    (NodeIterator.advance w l).1 = l.find? (NodeIterator.accept w) := by
  induction l with
  | nil => simp [NodeIterator.advance]
  | cons p rest ih =>
    unfold NodeIterator.advance
    by_cases h : NodeIterator.accept w p = true
    · simp [h]
    · simp only [Bool.not_eq_true] at h
      simp only [h, Bool.false_eq_true, if_false, List.find?_cons]
      exact ih

theorem NodeIterator.nextNode_create (doc : Document) :
    (NodeIterator.create doc.toPtr SHOW_ELEMENT).nextNode.1 = firstElement doc := by
  simp only [NodeIterator.nextNode, NodeIterator.create, NodeIterator.advance_fst, firstElement]
  congr 1
  funext p
  exact NodeIterator.accept_SHOW_ELEMENT p

theorem xmlFindTextContentDocument_some (doc : Document) (attr : XMLAttribute) :
    xmlFindTextContentDocument (some doc) attr = xmlFindTextContent (firstElement doc) attr := by
  simp only [xmlFindTextContentDocument, NodeIterator.nextNode_create]

theorem xmlFindNodesLoop_advance (attr : XMLAttribute) (w : Nat) (l : List NodePtr) :
    ∀ result : List NodePtr,
      xmlFindNodesLoop attr (NodeIterator.advance w l).1 ⟨w, (NodeIterator.advance w l).2⟩ result
        = result ++ (l.filter (NodeIterator.accept w)).filter
            (fun q => xmlNodeHasAttribute (some q) attr) := by
  induction l with
  | nil =>
    intro result
    simp only [NodeIterator.advance]
    rw [xmlFindNodesLoop]
    simp
  | cons p rest ih =>
    intro result
    unfold NodeIterator.advance
    by_cases h : NodeIterator.accept w p = true
    · simp only [h, if_true]
      rw [xmlFindNodesLoop]
      simp only [NodeIterator.nextNode]
      rw [ih]
      simp only [List.filter_cons, h, if_true]
      by_cases hm : xmlNodeHasAttribute (some p) attr = true
      · simp [hm]
      · simp [hm]
    · simp only [Bool.not_eq_true] at h
      simp only [h, Bool.false_eq_true, if_false]
      rw [ih]
      simp [List.filter_cons, h]

theorem xmlFindNodes_eq_filter (p_xml_document : Option Document) (attr : XMLAttribute) :
    xmlFindNodes p_xml_document attr
      = (elementsInDocumentOrder p_xml_document).filter
          (fun q => xmlNodeHasAttribute (some q) attr) := by
  cases p_xml_document with
  | none => simp [xmlFindNodes, elementsInDocumentOrder]
  | some doc =>
    simp only [xmlFindNodes, elementsInDocumentOrder, NodeIterator.nextNode, NodeIterator.create]
    rw [xmlFindNodesLoop_advance]
    have : NodeIterator.accept SHOW_ELEMENT = fun q => q.nodeType == NodeType.ELEMENT_NODE := by
      funext p; exact NodeIterator.accept_SHOW_ELEMENT p
    rw [this]
    simp

theorem elementsInDocumentOrder_nodup (d : Option Document) :
    (elementsInDocumentOrder d).Nodup := by
  cases d with
  | none => simp [elementsInDocumentOrder]
  | some doc => exact (documentOrder_nodup _).filter _

/-- A list without repetition whose members are among `a` and `b` and which has
`[a, b]` as a sublist is `[a, b]`. -/
theorem eq_pair_of_sublist {α : Type} {l : List α} {a b : α} (hnd : l.Nodup)
    (hmem : ∀ x ∈ l, x = a ∨ x = b) (hsub : List.Sublist [a, b] l) : l = [a, b] := by
  have hab : a ≠ b := by
    have := hsub.nodup hnd
    simpa using this
  have hnd2 : [a, b].Nodup := by simp [hab]
  have hsubset : l ⊆ [a, b] := by
    intro x hx
    rcases hmem x hx with rfl | rfl <;> simp
  have hlen : l.length ≤ [a, b].length :=
    (List.subperm_of_subset hnd hsubset).length_le
  exact (hsub.eq_of_length_le hlen).symm

/-! ## Claims about the attribute test and about a matching text node -/

/-- C3: for a predicate whose name and value are both empty, `xmlNodeHasAttribute`
returns true for every node argument, the null pointer and nodes without attributes
included. -/
theorem xmlNodeHasAttribute_wildcard (attr : XMLAttribute) (hname : attr.name = "")
    (hvalue : attr.value = "") (p_node : Option NodePtr) :
    xmlNodeHasAttribute p_node attr = true := by
  have hw : isWildcard attr = true := (isWildcard_iff attr).mpr ⟨hname, hvalue⟩
  cases p_node with
  | none => rw [xmlNodeHasAttribute_none, hw]
  | some p => rw [xmlNodeHasAttribute_some, hw]; rfl

/-- The wildcard test at the null pointer, at an element without attributes and at a
text node. -/
theorem xmlNodeHasAttribute_wildcard_witness :
    (XMLAttribute.mk "" "").name = "" ∧ (XMLAttribute.mk "" "").value = ""
      ∧ xmlNodeHasAttribute none ⟨"", ""⟩ = true
      ∧ xmlNodeHasAttribute (some ⟨.element "a" [] [], []⟩) ⟨"", ""⟩ = true
      ∧ xmlNodeHasAttribute (some ⟨.text "t", []⟩) ⟨"", ""⟩ = true :=
  ⟨rfl, rfl, xmlNodeHasAttribute_wildcard ⟨"", ""⟩ rfl rfl none,
   xmlNodeHasAttribute_wildcard ⟨"", ""⟩ rfl rfl (some ⟨.element "a" [] [], []⟩),
   xmlNodeHasAttribute_wildcard ⟨"", ""⟩ rfl rfl (some ⟨.text "t", []⟩)⟩

/-- C4: for a predicate that is not the wildcard, `xmlNodeHasAttribute` returns true
exactly when the pointer is not null and the attribute list of the node holds an
attribute whose name and value equal the requested ones (exact string equality); it
returns false for the null pointer and for a node without attributes. -/
theorem xmlNodeHasAttribute_iff (attr : XMLAttribute)
    (hnw : ¬ (attr.name = "" ∧ attr.value = "")) (p_node : Option NodePtr) :
    (xmlNodeHasAttribute p_node attr = true ↔
        ∃ p, p_node = some p ∧
          ∃ a ∈ p.attributes, a.nodeName = attr.name ∧ a.nodeValue = attr.value)
      ∧ xmlNodeHasAttribute none attr = false
      ∧ (∀ p : NodePtr, p.attributes = [] → xmlNodeHasAttribute (some p) attr = false) := by
  have hw : isWildcard attr = false := by
    rw [← Bool.not_eq_true, isWildcard_iff]; exact hnw
  refine ⟨?_, ?_, ?_⟩
  · cases p_node with
    | none => simp [xmlNodeHasAttribute_none, hw]
    | some p =>
      simp [xmlNodeHasAttribute_some, hw, attrMatches, NodePtr.attributes]
  · rw [xmlNodeHasAttribute_none, hw]
  · intro p hp
    rw [xmlNodeHasAttribute_some, hw]
    simp only [NodePtr.attributes] at hp
    simp [hp]

/-- The attribute test for `class="a"`: found among several attributes, not found
under a different capitalisation, not found at the null pointer. -/
theorem xmlNodeHasAttribute_iff_witness :
    ¬ ((XMLAttribute.mk "class" "a").name = "" ∧ (XMLAttribute.mk "class" "a").value = "")
      ∧ xmlNodeHasAttribute (some ⟨.element "e" [⟨"id", "1"⟩, ⟨"class", "a"⟩] [], []⟩) ⟨"class", "a"⟩
        = true
      ∧ xmlNodeHasAttribute (some ⟨.element "e" [⟨"Class", "a"⟩] [], []⟩) ⟨"class", "a"⟩ = false
      ∧ xmlNodeHasAttribute none ⟨"class", ""⟩ = false :=
  ⟨by decide,
   (xmlNodeHasAttribute_iff ⟨"class", "a"⟩ (by decide) _).1.mpr
      ⟨_, rfl, ⟨"class", "a"⟩, by simp [NodePtr.attributes, Node.attributes], rfl, rfl⟩,
   by
     have h := (xmlNodeHasAttribute_iff ⟨"class", "a"⟩ (by decide)
       (some ⟨.element "e" [⟨"Class", "a"⟩] [], []⟩)).1
     rw [← Bool.not_eq_true, h]
     rintro ⟨p, hp, a, ha, hn, _⟩
     cases hp
     simp only [NodePtr.attributes, Node.attributes, List.mem_singleton] at ha
     subst ha
     revert hn
     decide,
   (xmlNodeHasAttribute_iff ⟨"class", ""⟩ (by decide) none).2.1⟩

/-- C8: applied to a text node whose parent passes the attribute test (a text node
without parent under the wildcard included), the node entry of `xmlFindTextContent`
returns the text value of that node. -/
theorem xmlFindTextContent_matching_text (attr : XMLAttribute) (p : NodePtr)
    (htext : p.nodeType = NodeType.TEXT_NODE)
    (hparent : xmlNodeHasAttribute p.parentNode attr = true) :
    xmlFindTextContent (some p) attr = p.nodeValue := by
  rw [xmlFindTextContent_some]
  simp [isMatchingText, htext, hparent]

/-- The node entry on the text child of an element with `class="ctrlstate"`, and on a
text node without parent under the wildcard. -/
theorem xmlFindTextContent_matching_text_witness :
    NodePtr.nodeType ⟨.text "alone", []⟩ = NodeType.TEXT_NODE
      ∧ xmlNodeHasAttribute (NodePtr.parentNode ⟨.text "alone", []⟩) ⟨"", ""⟩ = true
      ∧ xmlFindTextContent (some ⟨.text "motoron", [(0, .element "li" [⟨"class", "ctrlstate"⟩] [.text "motoron"])]⟩)
        ⟨"class", "ctrlstate"⟩ = "motoron"
      ∧ xmlFindTextContent (some ⟨.text "alone", []⟩) ⟨"", ""⟩ = "alone" :=
  ⟨by decide, by decide,
   xmlFindTextContent_matching_text ⟨"class", "ctrlstate"⟩
      ⟨.text "motoron", [(0, .element "li" [⟨"class", "ctrlstate"⟩] [.text "motoron"])]⟩
      (by decide) (by decide),
   xmlFindTextContent_matching_text ⟨"", ""⟩ ⟨.text "alone", []⟩ (by decide) (by decide)⟩

/-! ## Claims about the first matching text node and about empty inputs -/

/-- C2, as stated, fails: in `<r><a class="x"></a><b class="x">second</b></r>`, where
`a` holds an empty text node, the first text node whose parent has `class="x"` is the
empty one, yet the node entry applied to `r` returns the later match "second". -/
theorem xmlFindTextContent_returns_later_match :
    firstMatchingTextValue ⟨"class", "x"⟩ ⟨emptyFirstTree, []⟩ = ""
      ∧ xmlFindTextContent (some ⟨emptyFirstTree, []⟩) ⟨"class", "x"⟩ = "second"
      ∧ xmlFindTextContent (some ⟨emptyFirstTree, []⟩) ⟨"class", "x"⟩
          ≠ firstMatchingTextValue ⟨"class", "x"⟩ ⟨emptyFirstTree, []⟩ := by
  decide

/-- C2, amended: the node entry of `xmlFindTextContent` returns the empty string when
the subtree of the node has no text node whose parent passes the attribute test, and it
returns the value of the first such text node in document order whenever that value is
non-empty or that text node is the given node itself or one of its children. -/
theorem xmlFindTextContent_first_matching_text (attr : XMLAttribute) (p : NodePtr) :
    (firstMatchingText attr p = none → xmlFindTextContent (some p) attr = "")
      ∧ (∀ q, firstMatchingText attr p = some q →
          (q.nodeValue ≠ "" ∨ q = p ∨ q ∈ p.childNodes) →
          xmlFindTextContent (some p) attr = q.nodeValue) := by
  constructor
  · intro h
    apply xmlFindTextContent_eq_empty_of_no_match
    intro x hx
    have := List.find?_eq_none.mp h x hx
    simpa using this
  · intro q hq hcond
    apply xmlFindTextContent_of_first_match attr p q hq
    rcases hcond with h | rfl | h
    · exact Or.inl h
    · exact Or.inr (Nat.le_succ _)
    · obtain ⟨j, hj⟩ := NodePtr.up_of_mem_childNodes h
      right; rw [hj]; simp

/-- The amended C2 on `<r><a class="x">first</a><b class="x">second</b></r>`: without a
match (`class="y"`) the result is empty, and for `class="x"` it is "first". -/
theorem xmlFindTextContent_first_matching_text_witness :
    firstMatchingText ⟨"class", "y"⟩ ⟨firstSecondTree, []⟩ = none
      ∧ xmlFindTextContent (some ⟨firstSecondTree, []⟩) ⟨"class", "y"⟩ = ""
      ∧ firstMatchingText ⟨"class", "x"⟩ ⟨firstSecondTree, []⟩
          = some ⟨.text "first",
              [(0, .element "a" [⟨"class", "x"⟩] [.text "first"]), (0, firstSecondTree)]⟩
      ∧ xmlFindTextContent (some ⟨firstSecondTree, []⟩) ⟨"class", "x"⟩ = "first" :=
  ⟨rfl,
   (xmlFindTextContent_first_matching_text ⟨"class", "y"⟩ ⟨firstSecondTree, []⟩).1 rfl,
   rfl,
   (xmlFindTextContent_first_matching_text ⟨"class", "x"⟩ ⟨firstSecondTree, []⟩).2
      ⟨.text "first",
        [(0, .element "a" [⟨"class", "x"⟩] [.text "first"]), (0, firstSecondTree)]⟩
      rfl (Or.inl (by decide))⟩

theorem elementsInDocumentOrder_eq_nil (doc : Document)
    (h : ∀ q ∈ documentOrder doc.toPtr, q.nodeType ≠ NodeType.ELEMENT_NODE) :
    elementsInDocumentOrder (some doc) = [] := by
  simp only [elementsInDocumentOrder, List.filter_eq_nil_iff]
  intro q hq
  simpa using h q hq

theorem firstElement_eq_none (doc : Document)
    (h : ∀ q ∈ documentOrder doc.toPtr, q.nodeType ≠ NodeType.ELEMENT_NODE) :
    firstElement doc = none := by
  simp only [firstElement, List.find?_eq_none]
  intro q hq
  simpa using h q hq

/-- C9: for every predicate, `xmlFindNodes` returns the empty sequence for a null
document and for a document that contains no element node. -/
theorem xmlFindNodes_empty (attr : XMLAttribute) :
    xmlFindNodes none attr = []
      ∧ ∀ doc : Document,
          (∀ q ∈ documentOrder doc.toPtr, q.nodeType ≠ NodeType.ELEMENT_NODE) →
          xmlFindNodes (some doc) attr = [] := by
  constructor
  · rw [xmlFindNodes_eq_filter]; rfl
  · intro doc h
    rw [xmlFindNodes_eq_filter, elementsInDocumentOrder_eq_nil doc h]
    rfl

/-- C9 under the wildcard, on a null document and on a document without elements. -/
theorem xmlFindNodes_empty_witness :
    (∀ q ∈ documentOrder noElementDocument.toPtr, q.nodeType ≠ NodeType.ELEMENT_NODE)
      ∧ xmlFindNodes none ⟨"", ""⟩ = []
      ∧ xmlFindNodes (some noElementDocument) ⟨"", ""⟩ = [] :=
  ⟨by decide, (xmlFindNodes_empty ⟨"", ""⟩).1,
   (xmlFindNodes_empty ⟨"", ""⟩).2 noElementDocument (by decide)⟩

/-- C10: for every predicate, the whole-document entry of `xmlFindTextContent` returns
the empty string for a null document and for a document that contains no element node,
and the node entry returns the empty string for a null node. -/
theorem xmlFindTextContent_empty (attr : XMLAttribute) :
    xmlFindTextContentDocument none attr = ""
      ∧ (∀ doc : Document,
          (∀ q ∈ documentOrder doc.toPtr, q.nodeType ≠ NodeType.ELEMENT_NODE) →
          xmlFindTextContentDocument (some doc) attr = "")
      ∧ xmlFindTextContent none attr = "" := by
  refine ⟨rfl, ?_, rfl⟩
  intro doc h
  rw [xmlFindTextContentDocument_some, firstElement_eq_none doc h]
  rfl

/-- C10 under the wildcard, on a null document, a document without elements and a null
node. -/
theorem xmlFindTextContent_empty_witness :
    (∀ q ∈ documentOrder noElementDocument.toPtr, q.nodeType ≠ NodeType.ELEMENT_NODE)
      ∧ xmlFindTextContentDocument none ⟨"", ""⟩ = ""
      ∧ xmlFindTextContentDocument (some noElementDocument) ⟨"", ""⟩ = ""
      ∧ xmlFindTextContent none ⟨"", ""⟩ = "" :=
  ⟨by decide, (xmlFindTextContent_empty ⟨"", ""⟩).1,
   (xmlFindTextContent_empty ⟨"", ""⟩).2.1 noElementDocument (by decide),
   (xmlFindTextContent_empty ⟨"", ""⟩).2.2⟩

/-! ## Claim about xmlFindNodes -/

/-- C1: `xmlFindNodes` returns exactly the element nodes of the document, taken in
document order, that pass `xmlNodeHasAttribute`: every returned node is a matching
element, every matching element is returned, none is returned twice, the order is
document order, and when the matching elements are E1 followed by E2 the result is
`[E1, E2]`. -/
theorem xmlFindNodes_document_order (p_xml_document : Option Document) (attr : XMLAttribute) :
    xmlFindNodes p_xml_document attr
        = (elementsInDocumentOrder p_xml_document).filter
            (fun q => xmlNodeHasAttribute (some q) attr)
      ∧ (∀ q, q ∈ xmlFindNodes p_xml_document attr ↔
          q ∈ elementsInDocumentOrder p_xml_document
            ∧ xmlNodeHasAttribute (some q) attr = true)
      ∧ (xmlFindNodes p_xml_document attr).Nodup
      ∧ List.Sublist (xmlFindNodes p_xml_document attr)
          (elementsInDocumentOrder p_xml_document)
      ∧ (∀ E1 E2 : NodePtr,
          List.Sublist [E1, E2] (elementsInDocumentOrder p_xml_document) →
          (∀ q, q ∈ elementsInDocumentOrder p_xml_document
              ∧ xmlNodeHasAttribute (some q) attr = true ↔ q = E1 ∨ q = E2) →
          xmlFindNodes p_xml_document attr = [E1, E2]) := by
  have heq := xmlFindNodes_eq_filter p_xml_document attr
  have hnd : (xmlFindNodes p_xml_document attr).Nodup := by
    rw [heq]; exact (elementsInDocumentOrder_nodup _).filter _
  have hmem : ∀ q, q ∈ xmlFindNodes p_xml_document attr ↔
      q ∈ elementsInDocumentOrder p_xml_document
        ∧ xmlNodeHasAttribute (some q) attr = true := by
    intro q; rw [heq, List.mem_filter]
  refine ⟨heq, hmem, hnd, ?_, ?_⟩
  · rw [heq]; exact List.filter_sublist _
  · intro E1 E2 hsub hiff
    apply eq_pair_of_sublist hnd
    · intro x hx
      exact (hiff x).mp ((hmem x).mp hx)
    · have h1 := ((hiff E1).mpr (Or.inl rfl)).2
      have h2 := ((hiff E2).mpr (Or.inr rfl)).2
      have := hsub.filter (fun q => xmlNodeHasAttribute (some q) attr)
      rw [← heq] at this
      simpa [List.filter_cons, h1, h2] using this

/-- C1 on `<r><e1 class="a"/><x/><e2 class="a"/></r>` with the predicate `class="a"`:
the result is `[e1, e2]`. -/
theorem xmlFindNodes_document_order_witness :
    List.Sublist
        [twoMatchesChild 0 (.element "e1" [⟨"class", "a"⟩] []),
         twoMatchesChild 2 (.element "e2" [⟨"class", "a"⟩] [])]
        (elementsInDocumentOrder (some twoMatchesDocument))
      ∧ xmlFindNodes (some twoMatchesDocument) ⟨"class", "a"⟩
        = [twoMatchesChild 0 (.element "e1" [⟨"class", "a"⟩] []),
           twoMatchesChild 2 (.element "e2" [⟨"class", "a"⟩] [])] := by
  have hsub : List.Sublist
      [twoMatchesChild 0 (.element "e1" [⟨"class", "a"⟩] []),
       twoMatchesChild 2 (.element "e2" [⟨"class", "a"⟩] [])]
      (elementsInDocumentOrder (some twoMatchesDocument)) :=
    List.Sublist.cons _ (List.Sublist.cons₂ _ (List.Sublist.cons _
      (List.Sublist.cons₂ _ List.Sublist.slnil)))
  refine ⟨hsub, ?_⟩
  apply (xmlFindNodes_document_order (some twoMatchesDocument) ⟨"class", "a"⟩).2.2.2.2 _ _ hsub
  intro q
  constructor
  · rintro ⟨hq, hm⟩
    have hq' : q ∈ [(⟨twoMatchesRoot, [(0, twoMatchesDocument.toNode)]⟩ : NodePtr),
        twoMatchesChild 0 (.element "e1" [⟨"class", "a"⟩] []),
        twoMatchesChild 1 (.element "x" [] []),
        twoMatchesChild 2 (.element "e2" [⟨"class", "a"⟩] [])] := hq
    simp only [List.mem_cons, List.mem_singleton, List.not_mem_nil, or_false] at hq'
    rcases hq' with rfl | rfl | rfl | rfl
    · exact absurd hm (by decide)
    · exact Or.inl rfl
    · exact absurd hm (by decide)
    · exact Or.inr rfl
  · rintro (rfl | rfl)
    · exact ⟨List.mem_cons_of_mem _ (List.mem_cons_self _ _), by decide⟩
    · exact ⟨List.mem_cons_of_mem _ (List.mem_cons_of_mem _ (List.mem_cons_of_mem _
        (List.mem_cons_self _ _))), by decide⟩

/-! ## Subtrees, and the claim about a predicate that is absent from the document -/

/-- The subtree of a node of a tree is a contiguous segment of the document order of
the tree. -/
theorem documentOrder_infix (p : NodePtr) :
    ∀ q ∈ documentOrder p, ∃ a b, documentOrder p = a ++ documentOrder q ++ b := by
  induction p using NodePtr.induct with
  | h p ih =>
    intro q hq
    rw [documentOrder_eq p] at hq
    rcases List.mem_cons.mp hq with rfl | hq
    · exact ⟨[], [], by simp⟩
    · obtain ⟨c, hc, hqc⟩ := List.mem_flatMap.mp hq
      obtain ⟨a, b, hab⟩ := ih c hc q hqc
      obtain ⟨l1, l2, hl⟩ := List.append_of_mem hc
      refine ⟨p :: l1.flatMap documentOrder ++ a, b ++ l2.flatMap documentOrder, ?_⟩
      rw [documentOrder_eq p, hl]
      simp [List.flatMap_append, hab]

theorem documentOrder_subset {p q : NodePtr} (hq : q ∈ documentOrder p) :
    documentOrder q ⊆ documentOrder p := by
  obtain ⟨a, b, hab⟩ := documentOrder_infix p q hq
  intro x hx
  rw [hab]
  simp [hx]

/-- Every node of a subtree other than its root is a child of a node of the subtree. -/
theorem parent_mem_documentOrder (p : NodePtr) :
    ∀ q ∈ documentOrder p, q = p ∨ ∃ q' ∈ documentOrder p, q ∈ q'.childNodes := by
  induction p using NodePtr.induct with
  | h p ih =>
    intro q hq
    rw [documentOrder_eq p] at hq
    rcases List.mem_cons.mp hq with h | hq
    · exact Or.inl h
    · right
      obtain ⟨c, hc, hqc⟩ := List.mem_flatMap.mp hq
      rcases ih c hc q hqc with rfl | ⟨q', hq', hqq'⟩
      · exact ⟨p, mem_documentOrder_self p, hc⟩
      · exact ⟨q', mem_documentOrder_of_child hc hq', hqq'⟩

theorem firstElement_mem {doc : Document} {R : NodePtr} (h : firstElement doc = some R) :
    R ∈ documentOrder doc.toPtr ∧ R.nodeType = NodeType.ELEMENT_NODE := by
  refine ⟨List.mem_of_find?_eq_some h, ?_⟩
  have := List.find?_some h
  simpa using this

/-- A text node of a tree whose parent passes a non-wildcard attribute test is the child
of a node of the tree that passes the test. -/
theorem parent_of_matching_text {attr : XMLAttribute} {p q : NodePtr}
    (hq : q ∈ documentOrder p) (hne : q ≠ p) (hm : isMatchingText attr q = true) :
    ∃ q' ∈ documentOrder p, q ∈ q'.childNodes ∧ xmlNodeHasAttribute (some q') attr = true := by
  rcases parent_mem_documentOrder p q hq with h | ⟨q', hq', hqq'⟩
  · exact absurd h hne
  · refine ⟨q', hq', hqq', ?_⟩
    have := NodePtr.parentNode_of_mem_childNodes hqq'
    simp only [isMatchingText, Bool.and_eq_true] at hm
    rw [this] at hm
    exact hm.2

/-- C5, as stated, fails for the wildcard predicate: no node of `<a>hello</a>` carries
an attribute with empty name and empty value, yet the whole-document entry returns
"hello". -/
theorem xmlFindTextContentDocument_wildcard_not_empty :
    (∀ q ∈ documentOrder helloDocument.toPtr, ∀ a ∈ q.attributes,
        ¬ (a.nodeName = (XMLAttribute.mk "" "").name ∧ a.nodeValue = (XMLAttribute.mk "" "").value))
      ∧ xmlFindTextContentDocument (some helloDocument) ⟨"", ""⟩ = "hello"
      ∧ xmlFindTextContentDocument (some helloDocument) ⟨"", ""⟩ ≠ "" := by
  decide

/-- C5, amended: for every document and every predicate that is not the wildcard, when
no node of the document carries an attribute with the name and value of the predicate,
the whole-document entry of `xmlFindTextContent` returns the empty string. -/
theorem xmlFindTextContentDocument_absent_predicate (doc : Document) (attr : XMLAttribute)
    (hnw : ¬ (attr.name = "" ∧ attr.value = ""))
    (habsent : ∀ q ∈ documentOrder doc.toPtr, ∀ a ∈ q.attributes,
        ¬ (a.nodeName = attr.name ∧ a.nodeValue = attr.value)) :
    xmlFindTextContentDocument (some doc) attr = "" := by
  have hw : isWildcard attr = false := by
    rw [← Bool.not_eq_true, isWildcard_iff]; exact hnw
  have hno : ∀ q ∈ documentOrder doc.toPtr, xmlNodeHasAttribute (some q) attr = false := by
    intro q hq
    rw [xmlNodeHasAttribute_some, hw, Bool.false_or, ← Bool.not_eq_true, List.any_eq_true]
    rintro ⟨a, ha, hma⟩
    simp only [attrMatches, Bool.and_eq_true, beq_iff_eq] at hma
    exact habsent q hq a ha hma
  rw [xmlFindTextContentDocument_some]
  cases hR : firstElement doc with
  | none => rfl
  | some R =>
    obtain ⟨hRmem, hRel⟩ := firstElement_mem hR
    apply xmlFindTextContent_eq_empty_of_no_match
    intro q hq
    rw [← Bool.not_eq_true]
    intro hm
    have hqdoc : q ∈ documentOrder doc.toPtr := documentOrder_subset hRmem hq
    have hne : q ≠ doc.toPtr := by
      rintro rfl
      simp only [isMatchingText, Bool.and_eq_true, beq_iff_eq] at hm
      have h9 : doc.toPtr.nodeType = NodeType.DOCUMENT_NODE := rfl
      rw [h9] at hm
      exact absurd hm.1 (by decide)
    obtain ⟨q', hq', _, hq'm⟩ := parent_of_matching_text hqdoc hne hm
    rw [hno q' hq'] at hq'm
    exact Bool.noConfusion hq'm

/-- The amended C5 on `<r><e class="a">t</e></r>` with the predicate `class="b"`. -/
theorem xmlFindTextContentDocument_absent_predicate_witness :
    ¬ ((XMLAttribute.mk "class" "b").name = "" ∧ (XMLAttribute.mk "class" "b").value = "")
      ∧ (∀ q ∈ documentOrder classADocument.toPtr, ∀ a ∈ q.attributes,
          ¬ (a.nodeName = (XMLAttribute.mk "class" "b").name
              ∧ a.nodeValue = (XMLAttribute.mk "class" "b").value))
      ∧ xmlFindTextContentDocument (some classADocument) ⟨"class", "b"⟩ = "" :=
  ⟨by decide, by decide,
   xmlFindTextContentDocument_absent_predicate classADocument ⟨"class", "b"⟩
     (by decide) (by decide)⟩

/-! ## The claim about the single matching element -/

theorem childNodes_of_single_text {p : NodePtr} {v : String}
    (h : p.node.childNodes = [.text v]) : p.childNodes = [textChildPtr p v] := by
  simp [NodePtr.childNodes, h, childPtrs, textChildPtr]

theorem documentOrder_single_text {p : NodePtr} {v : String}
    (h : p.node.childNodes = [.text v]) : documentOrder p = [p, textChildPtr p v] := by
  rw [documentOrder_eq, childNodes_of_single_text h]
  simp [documentOrder, documentOrderNode, textChildPtr]

theorem isMatchingText_textChildPtr {attr : XMLAttribute} {p : NodePtr} {v : String}
    (h : xmlNodeHasAttribute (some p) attr = true) :
    isMatchingText attr (textChildPtr p v) = true := by
  simp only [isMatchingText, textChildPtr, NodePtr.parentNode, NodePtr.nodeType, Node.nodeType]
  simpa using h

theorem isMatchingText_nodeType {attr : XMLAttribute} {q : NodePtr}
    (h : isMatchingText attr q = true) : q.nodeType = NodeType.TEXT_NODE := by
  simp only [isMatchingText, Bool.and_eq_true, beq_iff_eq] at h
  exact h.1

theorem nodeType_of_hasAttribute {attr : XMLAttribute} {q : NodePtr}
    (hw : isWildcard attr = false) (h : xmlNodeHasAttribute (some q) attr = true) :
    q.nodeType = NodeType.ELEMENT_NODE := by
  rw [xmlNodeHasAttribute_some, hw, Bool.false_or, List.any_eq_true] at h
  obtain ⟨a, ha, _⟩ := h
  obtain ⟨n, up⟩ := q
  cases n with
  | element nm attrs cs => rfl
  | text d => simp [Node.attributes] at ha
  | other k v cs => simp [Node.attributes] at ha

/-- When the subtree holds a matching text node and all its matching text nodes have
the value `v`, the search returns `v`. -/
theorem xmlFindTextContent_of_unique_value (attr : XMLAttribute) (p : NodePtr) (v : String)
    (hex : ∃ q ∈ documentOrder p, isMatchingText attr q = true)
    (hall : ∀ q ∈ documentOrder p, isMatchingText attr q = true → q.nodeValue = v) :
    xmlFindTextContent (some p) attr = v := by
  by_cases hv : v = ""
  · by_contra hne
    have hne' : xmlFindTextContent (some p) attr ≠ "" := by
      rw [hv] at hne; exact hne
    obtain ⟨q, hq, hqm, hqv⟩ := xmlFindTextContent_sound attr p hne'
    exact hne (by rw [← hqv]; exact hall q hq hqm)
  · cases hf : (documentOrder p).find? (isMatchingText attr) with
    | none =>
      obtain ⟨q, hq, hqm⟩ := hex
      have := List.find?_eq_none.mp hf q hq
      exact absurd hqm this
    | some q0 =>
      have h0 := hall q0 (List.mem_of_find?_eq_some hf) (List.find?_some hf)
      rw [xmlFindTextContent_of_first_match attr p q0 hf (Or.inl (by rw [h0]; exact hv)), h0]

/-- C6, as stated, fails: in a document whose document node holds `<a/>` followed by
`<e class="ctrlstate">motoron</e>`, the element `e` is the only element with
`class="ctrlstate"` and its only child is the text "motoron", yet the whole-document
entry searches the first element `a` only and returns the empty string. -/
theorem xmlFindTextContentDocument_misses_second_root :
    twoRootsSecond ∈ documentOrder twoRootsDocument.toPtr
      ∧ twoRootsSecond.nodeType = NodeType.ELEMENT_NODE
      ∧ xmlNodeHasAttribute (some twoRootsSecond) ⟨"class", "ctrlstate"⟩ = true
      ∧ (∀ q ∈ documentOrder twoRootsDocument.toPtr, q.nodeType = NodeType.ELEMENT_NODE →
          xmlNodeHasAttribute (some q) ⟨"class", "ctrlstate"⟩ = true → q = twoRootsSecond)
      ∧ twoRootsSecond.node.childNodes = [.text "motoron"]
      ∧ xmlFindTextContentDocument (some twoRootsDocument) ⟨"class", "ctrlstate"⟩ = ""
      ∧ xmlFindTextContentDocument (some twoRootsDocument) ⟨"class", "ctrlstate"⟩ ≠ "motoron" := by
  refine ⟨?_, by decide, by decide, ?_, rfl, by decide, by decide⟩
  · exact List.mem_cons_of_mem _ (List.mem_cons_of_mem _ (List.mem_cons_self _ _))
  · intro q hq
    have hq' : q ∈ [twoRootsDocument.toPtr,
        (⟨.element "a" [] [], [(0, twoRootsDocument.toNode)]⟩ : NodePtr),
        twoRootsSecond, textChildPtr twoRootsSecond "motoron"] := hq
    simp only [List.mem_cons, List.mem_singleton, List.not_mem_nil, or_false] at hq'
    rcases hq' with rfl | rfl | rfl | rfl
    · intro h; exact absurd h (by decide)
    · intro _ h; exact absurd h (by decide)
    · intro _ _; rfl
    · intro h; exact absurd h (by decide)

/-- C6, amended: when exactly one element E of the document passes the attribute test,
the only child of E is a text node with value `v`, and E lies in the subtree of the
first element of the document in document order, the whole-document entry of
`xmlFindTextContent` returns `v`. -/
theorem xmlFindTextContentDocument_single_match (doc : Document) (attr : XMLAttribute)
    (E R : NodePtr) (v : String)
    (hE : E ∈ documentOrder doc.toPtr) (hEel : E.nodeType = NodeType.ELEMENT_NODE)
    (hEm : xmlNodeHasAttribute (some E) attr = true)
    (huniq : ∀ q ∈ documentOrder doc.toPtr, q.nodeType = NodeType.ELEMENT_NODE →
        xmlNodeHasAttribute (some q) attr = true → q = E)
    (hchild : E.node.childNodes = [.text v])
    (hR : firstElement doc = some R) (hER : E ∈ documentOrder R) :
    xmlFindTextContentDocument (some doc) attr = v := by
  rw [xmlFindTextContentDocument_some, hR]
  obtain ⟨hRmem, hRel⟩ := firstElement_mem hR
  have hEorder := documentOrder_single_text hchild
  have hTE : textChildPtr E v ∈ documentOrder E := by rw [hEorder]; simp
  apply xmlFindTextContent_of_unique_value
  · exact ⟨textChildPtr E v, documentOrder_subset hER hTE, isMatchingText_textChildPtr hEm⟩
  · intro q hq hqm
    have hqtext := isMatchingText_nodeType hqm
    have hqT : q = textChildPtr E v := by
      cases hw : isWildcard attr with
      | true =>
        have hRE : R = E := by
          apply huniq R hRmem hRel
          rw [xmlNodeHasAttribute_some, hw]; rfl
        rw [hRE, hEorder] at hq
        simp only [List.mem_cons, List.mem_singleton, List.not_mem_nil, or_false] at hq
        rcases hq with rfl | h
        · rw [hEel] at hqtext; exact absurd hqtext (by decide)
        · exact h
      | false =>
        have hne : q ≠ R := by
          rintro rfl
          rw [hRel] at hqtext; exact absurd hqtext (by decide)
        obtain ⟨q', hq', hqq', hq'm⟩ := parent_of_matching_text hq hne hqm
        have hq'E : q' = E :=
          huniq q' (documentOrder_subset hRmem hq') (nodeType_of_hasAttribute hw hq'm) hq'm
        rw [hq'E, childNodes_of_single_text hchild] at hqq'
        simpa using hqq'
    rw [hqT]; rfl

/-- The amended C6 on `<r><x/><e class="ctrlstate">motoron</e></r>`: the result is
"motoron". -/
theorem xmlFindTextContentDocument_single_match_witness :
    firstElement ctrlstateDocument = some ctrlstateRoot
      ∧ ctrlstateElement.node.childNodes = [.text "motoron"]
      ∧ xmlFindTextContentDocument (some ctrlstateDocument) ⟨"class", "ctrlstate"⟩ = "motoron" := by
  refine ⟨rfl, rfl, ?_⟩
  apply xmlFindTextContentDocument_single_match ctrlstateDocument ⟨"class", "ctrlstate"⟩
    ctrlstateElement ctrlstateRoot "motoron"
  · exact List.mem_cons_of_mem _ (List.mem_cons_of_mem _ (List.mem_cons_of_mem _
      (List.mem_cons_self _ _)))
  · decide
  · decide
  · intro q hq
    have hq' : q ∈ [ctrlstateDocument.toPtr, ctrlstateRoot,
        (⟨.element "x" [] [], (0, ctrlstateRoot.node) :: ctrlstateRoot.up⟩ : NodePtr),
        ctrlstateElement, textChildPtr ctrlstateElement "motoron"] := hq
    simp only [List.mem_cons, List.mem_singleton, List.not_mem_nil, or_false] at hq'
    rcases hq' with rfl | rfl | rfl | rfl | rfl
    · intro h; exact absurd h (by decide)
    · intro _ h; exact absurd h (by decide)
    · intro _ h; exact absurd h (by decide)
    · intro _ _; rfl
    · intro h; exact absurd h (by decide)
  · rfl
  · rfl
  · exact List.mem_cons_of_mem _ (List.mem_cons_of_mem _ (List.mem_cons_self _ _))

/-! ## Positions in document order -/

theorem getElem?_unique_of_nodup {α : Type} {l : List α} (hnd : l.Nodup) {i j : Nat} {x : α}
    (hi : l[i]? = some x) (hj : l[j]? = some x) : i = j := by
  have hil : i < l.length := (List.getElem?_eq_some.mp hi).1
  have hjl : j < l.length := (List.getElem?_eq_some.mp hj).1
  by_contra hne
  rcases Nat.lt_or_gt_of_ne hne with h | h
  · exact List.nodup_iff_getElem?_ne_getElem?.mp hnd i j h hjl (hi.trans hj.symm)
  · exact List.nodup_iff_getElem?_ne_getElem?.mp hnd j i h hil (hj.trans hi.symm)

theorem getElem?_append_cons_self {α : Type} (pre rest : List α) (x : α) :
    (pre ++ x :: rest)[pre.length]? = some x := by
  rw [List.getElem?_append_right (le_refl _)]
  simp

theorem getElem?_append_cons_next {α : Type} (pre rest : List α) (x y : α) :
    (pre ++ x :: y :: rest)[pre.length + 1]? = some y := by
  rw [List.getElem?_append_right (Nat.le_succ _)]
  simp

theorem getElem?_of_mem_left {α : Type} {pre : List α} (rest : List α) {x : α} (hx : x ∈ pre) :
    ∃ k, k < pre.length ∧ (pre ++ rest)[k]? = some x := by
  obtain ⟨k, hk⟩ := List.mem_iff_getElem?.mp hx
  have hkl : k < pre.length := (List.getElem?_eq_some.mp hk).1
  exact ⟨k, hkl, by rw [List.getElem?_append_left hkl]; exact hk⟩

/-- In a tree, when X1 and X2 each have a text node as their only child, X1 precedes X2
in document order and X1 lies in the subtree of R, then neither text child occurs in
the subtree of R before X1. -/
theorem text_children_not_before {root R X1 X2 : NodePtr} {t1 t2 : String}
    {l1 l2 l3 a b : List NodePtr}
    (hprec : documentOrder root = l1 ++ X1 :: (l2 ++ X2 :: l3))
    (hR : R ∈ documentOrder root)
    (hc1 : X1.node.childNodes = [.text t1]) (hc2 : X2.node.childNodes = [.text t2])
    (hab : documentOrder R = a ++ documentOrder X1 ++ b) :
    textChildPtr X1 t1 ∉ a ∧ textChildPtr X2 t2 ∉ a := by
  have hnd := documentOrder_nodup root
  obtain ⟨a0, b0, hR0⟩ := documentOrder_infix root R hR
  have hX2mem : X2 ∈ documentOrder root := by rw [hprec]; simp
  obtain ⟨c, d, hX2⟩ := documentOrder_infix root X2 hX2mem
  rw [documentOrder_single_text hc2] at hX2
  rw [hab, documentOrder_single_text hc1] at hR0
  have e1 : documentOrder root
      = (a0 ++ a) ++ X1 :: textChildPtr X1 t1 :: (b ++ b0) := by
    rw [hR0]; simp
  have e2 : documentOrder root = c ++ X2 :: textChildPtr X2 t2 :: d := by
    rw [hX2]; simp
  have e3 : documentOrder root = (l1 ++ X1 :: l2) ++ X2 :: l3 := by
    rw [hprec]; simp
  -- positions of X1, of its text child, of X2 and of its text child
  have i1 : (documentOrder root)[(a0 ++ a).length]? = some X1 := by
    rw [e1]; exact getElem?_append_cons_self _ _ _
  have i1' : (documentOrder root)[(a0 ++ a).length + 1]? = some (textChildPtr X1 t1) := by
    rw [e1]; exact getElem?_append_cons_next _ _ _ _
  have j1 : (documentOrder root)[l1.length]? = some X1 := by
    rw [hprec]; exact getElem?_append_cons_self _ _ _
  have i2 : (documentOrder root)[c.length]? = some X2 := by
    rw [e2]; exact getElem?_append_cons_self _ _ _
  have i2' : (documentOrder root)[c.length + 1]? = some (textChildPtr X2 t2) := by
    rw [e2]; exact getElem?_append_cons_next _ _ _ _
  have j2 : (documentOrder root)[(l1 ++ X1 :: l2).length]? = some X2 := by
    rw [e3]; exact getElem?_append_cons_self _ _ _
  have hi : (a0 ++ a).length = l1.length := getElem?_unique_of_nodup hnd i1 j1
  have hj : c.length = (l1 ++ X1 :: l2).length := getElem?_unique_of_nodup hnd i2 j2
  have hbefore : ∀ x ∈ a, ∃ k, k < (a0 ++ a).length ∧ (documentOrder root)[k]? = some x := by
    intro x hx
    have hx' : x ∈ a0 ++ a := List.mem_append_right _ hx
    obtain ⟨k, hk, hkx⟩ := getElem?_of_mem_left (X1 :: textChildPtr X1 t1 :: (b ++ b0)) hx'
    exact ⟨k, hk, by rw [e1]; exact hkx⟩
  constructor
  · intro h
    obtain ⟨k, hk, hkx⟩ := hbefore _ h
    have := getElem?_unique_of_nodup hnd hkx i1'
    omega
  · intro h
    obtain ⟨k, hk, hkx⟩ := hbefore _ h
    have := getElem?_unique_of_nodup hnd hkx i2'
    simp only [List.length_append, List.length_cons] at hj hi hk
    omega

/-! ## The claim about two matching elements -/

theorem twoMatchingElements_emptyFirst :
    TwoMatchingElements emptyFirstDocument ⟨"class", "x"⟩ emptyFirstA emptyFirstB "" "second" := by
  refine ⟨⟨[emptyFirstDocument.toPtr, ⟨emptyFirstTree, [(0, emptyFirstDocument.toNode)]⟩],
      [textChildPtr emptyFirstA ""], [textChildPtr emptyFirstB "second"], rfl⟩,
    ⟨?_, ?_⟩, by decide, by decide, by decide, by decide, ?_, rfl, rfl, by decide⟩
  · intro h
    have h' : emptyFirstA ∈ [emptyFirstB, textChildPtr emptyFirstB "second"] := h
    simp [emptyFirstA, emptyFirstB, textChildPtr] at h'
  · intro h
    have h' : emptyFirstB ∈ [emptyFirstA, textChildPtr emptyFirstA ""] := h
    simp [emptyFirstA, emptyFirstB, textChildPtr] at h'
  · intro q hq
    have hq' : q ∈ [emptyFirstDocument.toPtr,
        (⟨emptyFirstTree, [(0, emptyFirstDocument.toNode)]⟩ : NodePtr),
        emptyFirstA, textChildPtr emptyFirstA "",
        emptyFirstB, textChildPtr emptyFirstB "second"] := hq
    simp only [List.mem_cons, List.mem_singleton, List.not_mem_nil, or_false] at hq'
    rcases hq' with rfl | rfl | rfl | rfl | rfl | rfl
    · intro h; exact absurd h (by decide)
    · intro _ h; exact absurd h (by decide)
    · intro _ _; exact Or.inl rfl
    · intro h; exact absurd h (by decide)
    · intro _ _; exact Or.inr rfl
    · intro h; exact absurd h (by decide)

theorem twoMatchingElements_threeRoots :
    TwoMatchingElements threeRootsDocument ⟨"class", "x"⟩ threeRootsA threeRootsB
      "first" "second" := by
  refine ⟨⟨[threeRootsDocument.toPtr, ⟨.element "c" [] [], [(0, threeRootsDocument.toNode)]⟩],
      [textChildPtr threeRootsA "first"], [textChildPtr threeRootsB "second"], rfl⟩,
    ⟨?_, ?_⟩, by decide, by decide, by decide, by decide, ?_, rfl, rfl, by decide⟩
  · intro h
    have h' : threeRootsA ∈ [threeRootsB, textChildPtr threeRootsB "second"] := h
    simp [threeRootsA, threeRootsB, textChildPtr] at h'
  · intro h
    have h' : threeRootsB ∈ [threeRootsA, textChildPtr threeRootsA "first"] := h
    simp [threeRootsA, threeRootsB, textChildPtr] at h'
  · intro q hq
    have hq' : q ∈ [threeRootsDocument.toPtr,
        (⟨.element "c" [] [], [(0, threeRootsDocument.toNode)]⟩ : NodePtr),
        threeRootsA, textChildPtr threeRootsA "first",
        threeRootsB, textChildPtr threeRootsB "second"] := hq
    simp only [List.mem_cons, List.mem_singleton, List.not_mem_nil, or_false] at hq'
    rcases hq' with rfl | rfl | rfl | rfl | rfl | rfl
    · intro h; exact absurd h (by decide)
    · intro _ h; exact absurd h (by decide)
    · intro _ _; exact Or.inl rfl
    · intro h; exact absurd h (by decide)
    · intro _ _; exact Or.inr rfl
    · intro h; exact absurd h (by decide)

theorem twoMatchingElements_firstSecond :
    TwoMatchingElements firstSecondDocument ⟨"class", "x"⟩ firstSecondA firstSecondB
      "first" "second" := by
  refine ⟨⟨[firstSecondDocument.toPtr, ⟨firstSecondTree, [(0, firstSecondDocument.toNode)]⟩],
      [textChildPtr firstSecondA "first"], [textChildPtr firstSecondB "second"], rfl⟩,
    ⟨?_, ?_⟩, by decide, by decide, by decide, by decide, ?_, rfl, rfl, by decide⟩
  · intro h
    have h' : firstSecondA ∈ [firstSecondB, textChildPtr firstSecondB "second"] := h
    simp [firstSecondA, firstSecondB, textChildPtr] at h'
  · intro h
    have h' : firstSecondB ∈ [firstSecondA, textChildPtr firstSecondA "first"] := h
    simp [firstSecondA, firstSecondB, textChildPtr] at h'
  · intro q hq
    have hq' : q ∈ [firstSecondDocument.toPtr,
        (⟨firstSecondTree, [(0, firstSecondDocument.toNode)]⟩ : NodePtr),
        firstSecondA, textChildPtr firstSecondA "first",
        firstSecondB, textChildPtr firstSecondB "second"] := hq
    simp only [List.mem_cons, List.mem_singleton, List.not_mem_nil, or_false] at hq'
    rcases hq' with rfl | rfl | rfl | rfl | rfl | rfl
    · intro h; exact absurd h (by decide)
    · intro _ h; exact absurd h (by decide)
    · intro _ _; exact Or.inl rfl
    · intro h; exact absurd h (by decide)
    · intro _ _; exact Or.inr rfl
    · intro h; exact absurd h (by decide)

/-- C7, as stated, fails in two ways. In `<r><a class="x"></a><b class="x">second</b></r>`,
where `a` holds an empty text node, the situation of the claim holds with the values ""
and "second", yet the whole-document entry returns "second", the value under the second
element. In a document whose document node holds `<c/>`, `<a class="x">first</a>` and
`<b class="x">second</b>`, the situation of the claim holds with "first" and "second",
yet the whole-document entry searches `c` only and returns the empty string. -/
theorem xmlFindTextContentDocument_returns_second :
    (TwoMatchingElements emptyFirstDocument ⟨"class", "x"⟩ emptyFirstA emptyFirstB "" "second"
        ∧ xmlFindTextContentDocument (some emptyFirstDocument) ⟨"class", "x"⟩ = "second"
        ∧ xmlFindTextContentDocument (some emptyFirstDocument) ⟨"class", "x"⟩ ≠ "")
      ∧ (TwoMatchingElements threeRootsDocument ⟨"class", "x"⟩ threeRootsA threeRootsB
            "first" "second"
        ∧ xmlFindTextContentDocument (some threeRootsDocument) ⟨"class", "x"⟩ = ""
        ∧ xmlFindTextContentDocument (some threeRootsDocument) ⟨"class", "x"⟩ ≠ "first") :=
  ⟨⟨twoMatchingElements_emptyFirst, by decide, by decide⟩,
   ⟨twoMatchingElements_threeRoots, by decide, by decide⟩⟩

/-- C7, amended: when X1 and X2 lie in disjoint subtrees of the document, X1 precedes X2
in document order, both pass the attribute test and no other element does, each has a
text node as its only child with the distinct values `t1` and `t2`, `t1` is not empty
and X1 lies in the subtree of the first element of the document, the whole-document
entry of `xmlFindTextContent` returns `t1` and not `t2`. -/
theorem xmlFindTextContentDocument_first_of_two (doc : Document) (attr : XMLAttribute)
    (X1 X2 R : NodePtr) (t1 t2 : String)
    (h : TwoMatchingElements doc attr X1 X2 t1 t2) (ht1 : t1 ≠ "")
    (hR : firstElement doc = some R) (hX1R : X1 ∈ documentOrder R) :
    xmlFindTextContentDocument (some doc) attr = t1
      ∧ xmlFindTextContentDocument (some doc) attr ≠ t2 := by
  obtain ⟨hprec, hdisj, hX1el, _, hX1m, _, honly, hc1, hc2, hne⟩ := h
  have main : xmlFindTextContentDocument (some doc) attr = t1 := by
    rw [xmlFindTextContentDocument_some, hR]
    obtain ⟨hRmem, hRel⟩ := firstElement_mem hR
    obtain ⟨l1, l2, l3, hprec⟩ := hprec
    obtain ⟨a, b, hab⟩ := documentOrder_infix R X1 hX1R
    have hX1order := documentOrder_single_text hc1
    have hnot := text_children_not_before hprec hRmem hc1 hc2 hab
    have hX1text : isMatchingText attr X1 = false := by
      rw [← Bool.not_eq_true]
      intro h
      have := isMatchingText_nodeType h
      rw [hX1el] at this; exact absurd this (by decide)
    have hfind : (documentOrder R).find? (isMatchingText attr) = some (textChildPtr X1 t1) := by
      rw [List.find?_eq_some]
      refine ⟨isMatchingText_textChildPtr hX1m, a ++ [X1], b, ?_, ?_⟩
      · rw [hab, hX1order]; simp
      · intro x hx
        rcases List.mem_append.mp hx with hxa | hx1
        · rw [Bool.not_eq_true']
          rw [← Bool.not_eq_true]
          intro hxm
          have hxR : x ∈ documentOrder R := by rw [hab]; simp [hxa]
          have hxtext := isMatchingText_nodeType hxm
          cases hw : isWildcard attr with
          | true =>
            have hRX : R = X1 ∨ R = X2 := by
              apply honly R hRmem hRel
              rw [xmlNodeHasAttribute_some, hw]; rfl
            have hRX1 : R = X1 := by
              rcases hRX with h | h
              · exact h
              · rw [h] at hX1R; exact absurd hX1R hdisj.1
            have hlen := congrArg List.length hab
            rw [hRX1] at hlen
            simp only [List.length_append] at hlen
            have : a.length = 0 := by omega
            rw [List.length_eq_zero.mp this] at hxa
            simp at hxa
          | false =>
            have hxne : x ≠ R := by
              rintro rfl
              rw [hRel] at hxtext; exact absurd hxtext (by decide)
            obtain ⟨q', hq', hxq', hq'm⟩ := parent_of_matching_text hxR hxne hxm
            rcases honly q' (documentOrder_subset hRmem hq')
                (nodeType_of_hasAttribute hw hq'm) hq'm with h | h
            · rw [h, childNodes_of_single_text hc1] at hxq'
              simp only [List.mem_singleton] at hxq'
              rw [hxq'] at hxa
              exact hnot.1 hxa
            · rw [h, childNodes_of_single_text hc2] at hxq'
              simp only [List.mem_singleton] at hxq'
              rw [hxq'] at hxa
              exact hnot.2 hxa
        · simp only [List.mem_singleton] at hx1
          rw [hx1, hX1text]; rfl
    have hval : (textChildPtr X1 t1).nodeValue = t1 := rfl
    rw [xmlFindTextContent_of_first_match attr R _ hfind (Or.inl (by rw [hval]; exact ht1)), hval]
  exact ⟨main, by rw [main]; exact hne⟩

/-- The amended C7 on `<r><a class="x">first</a><b class="x">second</b></r>`: the result
is "first" and not "second". -/
theorem xmlFindTextContentDocument_first_of_two_witness :
    TwoMatchingElements firstSecondDocument ⟨"class", "x"⟩ firstSecondA firstSecondB
        "first" "second"
      ∧ ("first" : String) ≠ ""
      ∧ firstElement firstSecondDocument
          = some ⟨firstSecondTree, [(0, firstSecondDocument.toNode)]⟩
      ∧ xmlFindTextContentDocument (some firstSecondDocument) ⟨"class", "x"⟩ = "first"
      ∧ xmlFindTextContentDocument (some firstSecondDocument) ⟨"class", "x"⟩ ≠ "second" :=
  ⟨twoMatchingElements_firstSecond, by decide, rfl,
   xmlFindTextContentDocument_first_of_two firstSecondDocument ⟨"class", "x"⟩
     firstSecondA firstSecondB ⟨firstSecondTree, [(0, firstSecondDocument.toNode)]⟩
     "first" "second" twoMatchingElements_firstSecond (by decide) rfl
     (List.mem_cons_of_mem _ (List.mem_cons_self _ _))⟩

/-! ## Claims about TriBool -/

/-- C13: a default-constructed `TriBool` is Unknown: `isUnknown()` is true and
`isTrue()` and `isFalse()` are both false. -/
theorem TriBool.new_isUnknown :
    TriBool.new.isUnknown = true ∧ TriBool.new.isTrue = false ∧ TriBool.new.isFalse = false := by
  decide

/-- C14: the `TriBool` constructed from a boolean `b` has `isTrue() = b`,
`isFalse() = !b` and `isUnknown() = false`; it is never Unknown. -/
theorem TriBool.ofBool_state (b : Bool) :
    (TriBool.ofBool b).isTrue = b ∧ (TriBool.ofBool b).isFalse = !b
      ∧ (TriBool.ofBool b).isUnknown = false
      ∧ (TriBool.ofBool b).value ≠ TriBool.Values.UNKNOWN_VALUE := by
  cases b <;> decide

/-- C15, as stated, fails for the value 3 of the enum, which names no enumerator:
`TriBool(static_cast<Values>(3))` is rendered "false" although `isFalse()` is false, and
it has the rendering of `TriBool(false)` although `operator==` between the two is
false. -/
theorem TriBool.toString_false_without_isFalse :
    (TriBool.ofValues .UNNAMED_3).toString = "false"
      ∧ (TriBool.ofValues .UNNAMED_3).isFalse = false
      ∧ ¬ ((TriBool.ofValues .UNNAMED_3).toString = "false"
            ↔ (TriBool.ofValues .UNNAMED_3).isFalse = true)
      ∧ (TriBool.ofValues .UNNAMED_3).toString = (TriBool.ofBool false).toString
      ∧ (TriBool.ofValues .UNNAMED_3).eq (TriBool.ofBool false) = false
      ∧ ¬ ((TriBool.ofValues .UNNAMED_3).toString = (TriBool.ofBool false).toString
            ↔ (TriBool.ofValues .UNNAMED_3).eq (TriBool.ofBool false) = true) := by
  decide

/-- C15, amended: `toString()` returns one of "unknown", "true", "false": "unknown"
exactly when `isUnknown()` holds, "true" exactly when `isTrue()` holds, and "false"
exactly when neither holds, in particular whenever `isFalse()` holds; values between
which `operator==` holds have the same rendering. For values that hold one of the three
enumerators, "false" is returned exactly when `isFalse()` holds, and two such values
have the same rendering exactly when `operator==` holds between them. -/
theorem TriBool.toString_spec (t u : TriBool) :
    (t.toString = "unknown" ∨ t.toString = "true" ∨ t.toString = "false")
      ∧ (t.toString = "unknown" ↔ t.isUnknown = true)
      ∧ (t.toString = "true" ↔ t.isTrue = true)
      ∧ (t.toString = "false" ↔ (t.isUnknown = false ∧ t.isTrue = false))
      ∧ (t.isFalse = true → t.toString = "false")
      ∧ (t.eq u = true → t.toString = u.toString)
      ∧ (t.value.isEnumerator = true → (t.toString = "false" ↔ t.isFalse = true))
      ∧ (t.value.isEnumerator = true → u.value.isEnumerator = true →
          (t.toString = u.toString ↔ t.eq u = true)) := by
  obtain ⟨v⟩ := t
  obtain ⟨w⟩ := u
  cases v <;> cases w <;> decide

/-- The amended C15 on `TriBool(false)` and `TriBool(true)`: "false" goes with
`isFalse()`, and the two renderings differ as the two values do. -/
theorem TriBool.toString_spec_witness :
    (TriBool.ofBool false).value.isEnumerator = true
      ∧ (TriBool.ofBool true).value.isEnumerator = true
      ∧ (TriBool.ofBool false).isFalse = true
      ∧ (TriBool.ofBool false).toString = "false"
      ∧ (TriBool.ofBool false).eq (TriBool.ofBool true) = false
      ∧ (TriBool.ofBool false).toString ≠ (TriBool.ofBool true).toString := by
  have h := TriBool.toString_spec (TriBool.ofBool false) (TriBool.ofBool true)
  have h3 := h.2.2.2
  have h6 := h3.2.2.2
  exact ⟨by decide, by decide, by decide, (h6.1 (by decide)).mpr (by decide), by decide,
    fun e => absurd ((h6.2 (by decide) (by decide)).mp e) (by decide)⟩

/-- C16, as stated, fails for the value 3 of the enum, which names no enumerator: two
objects `TriBool(static_cast<Values>(3))` compare equal although neither is Unknown,
True or False, so they do not hold the same one of the three states. -/
theorem TriBool.eq_without_state :
    (TriBool.ofValues .UNNAMED_3).eq (TriBool.ofValues .UNNAMED_3) = true
      ∧ (TriBool.ofValues .UNNAMED_3).isUnknown = false
      ∧ (TriBool.ofValues .UNNAMED_3).isTrue = false
      ∧ (TriBool.ofValues .UNNAMED_3).isFalse = false
      ∧ ¬ TriBool.SameState (TriBool.ofValues .UNNAMED_3) (TriBool.ofValues .UNNAMED_3)
      ∧ ¬ ((TriBool.ofValues .UNNAMED_3).eq (TriBool.ofValues .UNNAMED_3) = true
            ↔ TriBool.SameState (TriBool.ofValues .UNNAMED_3)
                (TriBool.ofValues .UNNAMED_3)) := by
  unfold TriBool.SameState
  decide

/-- C16, amended: `a == b` holds exactly when `a` and `b` store the same value of the
enum, and `a != b` exactly when they do not. Two values that hold the same one of the
three states compare equal, and when `a` or `b` holds one of the three enumerators,
`a == b` holds exactly when they hold the same one of the three states. Two Unknown
values compare equal, an Unknown value never compares equal to a True or a False value,
and comparing with a raw enum value `v` gives the same answer as comparing with
`TriBool(v)`. -/
theorem TriBool.eq_spec (a b : TriBool) (v : TriBool.Values) :
    (a.eq b = true ↔ a.value = b.value)
      ∧ (a.eq b = true ↔ a = b)
      ∧ (a.ne b = !(a.eq b))
      ∧ (TriBool.SameState a b → a.eq b = true)
      ∧ (a.value.isEnumerator = true ∨ b.value.isEnumerator = true →
          (a.eq b = true ↔ TriBool.SameState a b))
      ∧ (a.isUnknown = true → b.isUnknown = true → a.eq b = true)
      ∧ (a.isUnknown = true → (b.isTrue = true ∨ b.isFalse = true) →
          a.eq b = false ∧ b.eq a = false)
      ∧ a.eqValues v = a.eq (TriBool.ofValues v)
      ∧ a.neValues v = a.ne (TriBool.ofValues v) := by
  obtain ⟨x⟩ := a
  obtain ⟨y⟩ := b
  unfold TriBool.SameState
  cases x <;> cases y <;> cases v <;> decide

/-- The amended C16 on the values built by the three constructors. -/
theorem TriBool.eq_spec_witness :
    TriBool.new.isUnknown = true ∧ (TriBool.ofValues .UNKNOWN_VALUE).isUnknown = true
      ∧ TriBool.new.eq (TriBool.ofValues .UNKNOWN_VALUE) = true
      ∧ (TriBool.ofBool true).isTrue = true
      ∧ TriBool.new.eq (TriBool.ofBool true) = false
      ∧ (TriBool.ofBool true).eq TriBool.new = false
      ∧ (TriBool.ofBool true).value.isEnumerator = true
      ∧ TriBool.SameState (TriBool.ofBool true) (TriBool.ofValues .TRUE_VALUE) := by
  have hu := (TriBool.eq_spec TriBool.new (TriBool.ofValues .UNKNOWN_VALUE) .TRUE_VALUE).2.2.2
  have hd := (TriBool.eq_spec TriBool.new (TriBool.ofBool true) .TRUE_VALUE).2.2.2
  have hs := (TriBool.eq_spec (TriBool.ofBool true) (TriBool.ofValues .TRUE_VALUE)
    .TRUE_VALUE).2.2.2
  have hdiffer := hd.2.2.2.1 (by decide) (Or.inl (by decide))
  exact ⟨by decide, by decide, hu.2.2.1 (by decide) (by decide), by decide,
    hdiffer.1, hdiffer.2, by decide, (hs.2.1 (Or.inl (by decide))).mp (by decide)⟩

/-! ## Claims about the whole-document entry, non-empty text values and the origin of a result -/

/-- C11: for a non-null document the whole-document entry of `xmlFindTextContent`
returns what the node entry returns on the first element node of the document in
document order: either that element R exists, no node before R in document order is an
element, and the result is the node entry on R; or the document holds no element and the
result is the node entry on the null pointer. -/
theorem xmlFindTextContentDocument_eq_node_entry (doc : Document) (attr : XMLAttribute) :
    xmlFindTextContentDocument (some doc) attr = xmlFindTextContent (firstElement doc) attr
      ∧ ((∃ R pre post, documentOrder doc.toPtr = pre ++ R :: post
            ∧ (∀ x ∈ pre, x.nodeType ≠ NodeType.ELEMENT_NODE)
            ∧ R.nodeType = NodeType.ELEMENT_NODE
            ∧ firstElement doc = some R
            ∧ xmlFindTextContentDocument (some doc) attr = xmlFindTextContent (some R) attr)
        ∨ ((∀ q ∈ documentOrder doc.toPtr, q.nodeType ≠ NodeType.ELEMENT_NODE)
            ∧ firstElement doc = none
            ∧ xmlFindTextContentDocument (some doc) attr = xmlFindTextContent none attr)) := by
  refine ⟨xmlFindTextContentDocument_some doc attr, ?_⟩
  cases hR : firstElement doc with
  | none =>
    right
    refine ⟨?_, rfl, by rw [xmlFindTextContentDocument_some, hR]⟩
    intro q hq
    have := List.find?_eq_none.mp hR q hq
    simpa using this
  | some R =>
    left
    obtain ⟨hRel, pre, post, hsplit, hpre⟩ := List.find?_eq_some.mp hR
    refine ⟨R, pre, post, hsplit, ?_, by simpa using hRel, rfl,
      by rw [xmlFindTextContentDocument_some, hR]⟩
    intro x hx
    have := hpre x hx
    simpa using this

/-- C11 on `<r><x/><e class="ctrlstate">motoron</e></r>`: the whole-document entry is the
node entry on the element `r`. -/
theorem xmlFindTextContentDocument_eq_node_entry_witness :
    firstElement ctrlstateDocument = some ctrlstateRoot
      ∧ xmlFindTextContentDocument (some ctrlstateDocument) ⟨"class", "ctrlstate"⟩
        = xmlFindTextContent (some ctrlstateRoot) ⟨"class", "ctrlstate"⟩ :=
  ⟨rfl, (xmlFindTextContentDocument_eq_node_entry ctrlstateDocument ⟨"class", "ctrlstate"⟩).1⟩

/-- C17: in a tree in which every text node has a non-empty value, the node entry of
`xmlFindTextContent` returns the value of the first text node of the subtree, in
document order, whose parent passes the attribute test, and it returns the empty string
exactly when the subtree has no such text node. -/
theorem xmlFindTextContent_nonempty_texts (attr : XMLAttribute) (p : NodePtr)
    (h : ∀ q ∈ documentOrder p, q.nodeType = NodeType.TEXT_NODE → q.nodeValue ≠ "") :
    xmlFindTextContent (some p) attr = firstMatchingTextValue attr p
      ∧ (xmlFindTextContent (some p) attr = "" ↔ firstMatchingText attr p = none)
      ∧ (xmlFindTextContent (some p) attr = "" ↔
          ∀ q ∈ documentOrder p,
            ¬ (q.nodeType = NodeType.TEXT_NODE ∧ xmlNodeHasAttribute q.parentNode attr = true)) := by
  have hval : xmlFindTextContent (some p) attr = firstMatchingTextValue attr p := by
    unfold firstMatchingTextValue
    cases hf : firstMatchingText attr p with
    | none =>
      apply xmlFindTextContent_eq_empty_of_no_match
      intro x hx
      have := List.find?_eq_none.mp hf x hx
      simpa using this
    | some q =>
      have hq : q ∈ documentOrder p := List.mem_of_find?_eq_some hf
      have hqm : isMatchingText attr q = true := List.find?_some hf
      exact xmlFindTextContent_of_first_match attr p q hf
        (Or.inl (h q hq (isMatchingText_nodeType hqm)))
  have hiff : xmlFindTextContent (some p) attr = "" ↔ firstMatchingText attr p = none := by
    rw [hval]
    unfold firstMatchingTextValue
    cases hf : firstMatchingText attr p with
    | none => simp
    | some q =>
      have hq : q ∈ documentOrder p := List.mem_of_find?_eq_some hf
      have hqm : isMatchingText attr q = true := List.find?_some hf
      simp [h q hq (isMatchingText_nodeType hqm)]
  refine ⟨hval, hiff, ?_⟩
  rw [hiff]
  unfold firstMatchingText
  rw [List.find?_eq_none]
  simp [isMatchingText]

/-- C17 on `<r><a class="x">first</a><b class="x">second</b></r>`: "first" for
`class="x"`, and an empty result for `class="y"`, which no element carries. -/
theorem xmlFindTextContent_nonempty_texts_witness :
    (∀ q ∈ documentOrder ⟨firstSecondTree, []⟩,
        q.nodeType = NodeType.TEXT_NODE → q.nodeValue ≠ "")
      ∧ xmlFindTextContent (some ⟨firstSecondTree, []⟩) ⟨"class", "x"⟩ = "first"
      ∧ firstMatchingText ⟨"class", "y"⟩ ⟨firstSecondTree, []⟩ = none
      ∧ xmlFindTextContent (some ⟨firstSecondTree, []⟩) ⟨"class", "y"⟩ = "" :=
  ⟨by decide,
   (xmlFindTextContent_nonempty_texts ⟨"class", "x"⟩ ⟨firstSecondTree, []⟩ (by decide)).1,
   rfl,
   (xmlFindTextContent_nonempty_texts ⟨"class", "y"⟩ ⟨firstSecondTree, []⟩
      (by decide)).2.1.mpr rfl⟩

/-- C20: when the node entry of `xmlFindTextContent` returns a non-empty string `s`, the
pointer is not null and `s` is the value of a text node of the subtree of the given
node (the node itself or a descendant) whose parent passes the attribute test. -/
theorem xmlFindTextContent_result_is_matching_text (p_node : Option NodePtr)
    (attr : XMLAttribute) (s : String)
    (hs : xmlFindTextContent p_node attr = s) (hne : s ≠ "") :
    ∃ p, p_node = some p ∧
      ∃ q ∈ documentOrder p, q.nodeType = NodeType.TEXT_NODE
        ∧ xmlNodeHasAttribute q.parentNode attr = true ∧ q.nodeValue = s := by
  cases p_node with
  | none => exact absurd hs.symm hne
  | some p =>
    refine ⟨p, rfl, ?_⟩
    have hne' : xmlFindTextContent (some p) attr ≠ "" := by rw [hs]; exact hne
    obtain ⟨q, hq, hqm, hqv⟩ := xmlFindTextContent_sound attr p hne'
    refine ⟨q, hq, isMatchingText_nodeType hqm, ?_, by rw [hqv, hs]⟩
    simp only [isMatchingText, Bool.and_eq_true] at hqm
    exact hqm.2

/-- C20 on `<r><a class="x">first</a><b class="x">second</b></r>`: the result "first" is
the value of a text node of the tree whose parent has `class="x"`. -/
theorem xmlFindTextContent_result_is_matching_text_witness :
    xmlFindTextContent (some ⟨firstSecondTree, []⟩) ⟨"class", "x"⟩ = "first"
      ∧ ("first" : String) ≠ ""
      ∧ ∃ p, some (⟨firstSecondTree, []⟩ : NodePtr) = some p ∧
          ∃ q ∈ documentOrder p, q.nodeType = NodeType.TEXT_NODE
            ∧ xmlNodeHasAttribute q.parentNode ⟨"class", "x"⟩ = true ∧ q.nodeValue = "first" :=
  ⟨by decide, by decide,
   xmlFindTextContent_result_is_matching_text (some ⟨firstSecondTree, []⟩) ⟨"class", "x"⟩
     "first" (by decide) (by decide)⟩

/-! ## The claim about searching from the document node -/

theorem childPtrs_nodup (parent : Node) (up : List (Nat × Node)) (i : Nat) (cs : List Node) :
    (childPtrs parent up i cs).Nodup := by
  induction cs generalizing i with
  | nil => simp [childPtrs]
  | cons c rest ih =>
    simp only [childPtrs, List.nodup_cons]
    refine ⟨?_, ih (i + 1)⟩
    intro h
    obtain ⟨j, m, hj, _, heq⟩ := mem_childPtrs h
    simp only [NodePtr.mk.injEq, List.cons.injEq, Prod.mk.injEq] at heq
    omega

theorem NodePtr.childNodes_nodup (p : NodePtr) : p.childNodes.Nodup :=
  childPtrs_nodup _ _ _ _

theorem searchChildren_append_of_empty (attr : XMLAttribute) (l l' : List NodePtr)
    (h : ∀ c ∈ l, isMatchingText attr c = false ∧ xmlFindTextContent (some c) attr = "") :
    searchChildren attr (l ++ l') = searchChildren attr l' := by
  induction l with
  | nil => rfl
  | cons c rest ih =>
    have hc := h c (List.mem_cons_self _ _)
    rw [List.cons_append, searchChildren, hc.1, hc.2]
    simpa using ih (fun x hx => h x (List.mem_cons_of_mem _ hx))

theorem searchChildren_of_empty (attr : XMLAttribute) (l : List NodePtr)
    (h : ∀ c ∈ l, isMatchingText attr c = false ∧ xmlFindTextContent (some c) attr = "") :
    searchChildren attr l = "" := by
  have := searchChildren_append_of_empty attr l [] h
  rw [List.append_nil] at this
  rw [this]; rfl

/-- A subtree without text nodes gives an empty search and its root is no match. -/
theorem empty_of_no_text (attr : XMLAttribute) (c : NodePtr)
    (h : ∀ q ∈ documentOrder c, q.nodeType ≠ NodeType.TEXT_NODE) :
    isMatchingText attr c = false ∧ xmlFindTextContent (some c) attr = "" := by
  have hno : ∀ q ∈ documentOrder c, isMatchingText attr q = false := by
    intro q hq
    rw [← Bool.not_eq_true]
    intro hm
    exact h q hq (isMatchingText_nodeType hm)
  exact ⟨hno c (mem_documentOrder_self c), xmlFindTextContent_eq_empty_of_no_match attr c hno⟩

/-- The node entry on a node that is not a text node, whose children other than the
child R hold no text node in their subtrees, is the node entry on R. -/
theorem xmlFindTextContent_of_single_relevant_child (attr : XMLAttribute) (p R : NodePtr)
    (hp : p.nodeType ≠ NodeType.TEXT_NODE) (hR : R ∈ p.childNodes)
    (hRt : R.nodeType ≠ NodeType.TEXT_NODE)
    (hother : ∀ c ∈ p.childNodes, c ≠ R →
        ∀ q ∈ documentOrder c, q.nodeType ≠ NodeType.TEXT_NODE) :
    xmlFindTextContent (some p) attr = xmlFindTextContent (some R) attr := by
  have hpm : isMatchingText attr p = false := by
    rw [← Bool.not_eq_true]; intro hm; exact hp (isMatchingText_nodeType hm)
  have hRm : isMatchingText attr R = false := by
    rw [← Bool.not_eq_true]; intro hm; exact hRt (isMatchingText_nodeType hm)
  rw [xmlFindTextContent_some p, hpm]
  simp only [Bool.false_eq_true, if_false]
  obtain ⟨l1, l2, hsplit⟩ := List.append_of_mem hR
  have hnd := NodePtr.childNodes_nodup p
  rw [hsplit] at hnd
  have hnd' := List.nodup_append.mp hnd
  have hR1 : R ∉ l1 := fun h => hnd'.2.2 h (List.mem_cons_self _ _)
  have hR2 : R ∉ l2 := (List.nodup_cons.mp hnd'.2.1).1
  have h1 : ∀ c ∈ l1, isMatchingText attr c = false ∧ xmlFindTextContent (some c) attr = "" := by
    intro c hc
    apply empty_of_no_text
    apply hother c (by rw [hsplit]; simp [hc])
    rintro rfl; exact hR1 hc
  have h2 : ∀ c ∈ l2, isMatchingText attr c = false ∧ xmlFindTextContent (some c) attr = "" := by
    intro c hc
    apply empty_of_no_text
    apply hother c (by rw [hsplit]; simp [hc])
    rintro rfl; exact hR2 hc
  rw [hsplit, searchChildren_append_of_empty attr l1 _ h1, searchChildren, hRm,
    searchChildren_of_empty attr l2 h2]
  by_cases he : xmlFindTextContent (some R) attr = ""
  · simp [he]
  · simp [he]

/-- The first element of a document whose document node has the element child R and
whose other children hold no element in their subtrees is R. -/
theorem firstElement_of_single_element_child (doc : Document) (R : NodePtr)
    (hR : R ∈ doc.toPtr.childNodes) (hRel : R.nodeType = NodeType.ELEMENT_NODE)
    (hother : ∀ c ∈ doc.toPtr.childNodes, c ≠ R →
        ∀ q ∈ documentOrder c, q.nodeType ≠ NodeType.ELEMENT_NODE) :
    firstElement doc = some R := by
  obtain ⟨l1, l2, hsplit⟩ := List.append_of_mem hR
  have hnd := NodePtr.childNodes_nodup doc.toPtr
  rw [hsplit] at hnd
  have hR1 : R ∉ l1 := fun h => (List.nodup_append.mp hnd).2.2 h (List.mem_cons_self _ _)
  unfold firstElement
  rw [List.find?_eq_some]
  refine ⟨by simpa using hRel, doc.toPtr :: l1.flatMap documentOrder,
    (documentOrder R).tail ++ l2.flatMap documentOrder, ?_, ?_⟩
  · rw [documentOrder_eq doc.toPtr, hsplit, List.flatMap_append, List.flatMap_cons]
    rw [documentOrder_eq R]
    simp
  · intro x hx
    rcases List.mem_cons.mp hx with rfl | hx
    · rfl
    · obtain ⟨c, hc, hxc⟩ := List.mem_flatMap.mp hx
      have hcR : c ≠ R := by rintro rfl; exact hR1 hc
      have := hother c (by rw [hsplit]; simp [hc]) hcR x hxc
      simpa using this

/-- C18, as stated, fails: the document node of `entityDocument` has the root element
`<r class="x">hit</r>` as its only element child and no text child, but its document
type holds an entity whose replacement content is the element `<e/>`. That element is
the first element in document order, so the whole-document entry searches it and returns
the empty string, while the node entry on the document node returns "hit". -/
theorem xmlFindTextContentDocument_ne_document_node :
    entityDocumentRoot ∈ entityDocument.toPtr.childNodes
      ∧ entityDocumentRoot.nodeType = NodeType.ELEMENT_NODE
      ∧ (∀ c ∈ entityDocument.toPtr.childNodes,
          c.nodeType = NodeType.ELEMENT_NODE → c = entityDocumentRoot)
      ∧ (∀ c ∈ entityDocument.toPtr.childNodes, c.nodeType ≠ NodeType.TEXT_NODE)
      ∧ xmlFindTextContentDocument (some entityDocument) ⟨"class", "x"⟩ = ""
      ∧ xmlFindTextContent (some entityDocument.toPtr) ⟨"class", "x"⟩ = "hit"
      ∧ xmlFindTextContentDocument (some entityDocument) ⟨"class", "x"⟩
          ≠ xmlFindTextContent (some entityDocument.toPtr) ⟨"class", "x"⟩ := by
  refine ⟨List.mem_cons_of_mem _ (List.mem_cons_self _ _), by decide, ?_, by decide,
    by decide, by decide, by decide⟩
  intro c hc
  have hc' : c ∈ [(⟨.other .DOCUMENT_TYPE "" [.other .ENTITY "" [.element "e" [] []]],
      [(0, entityDocument.toNode)]⟩ : NodePtr), entityDocumentRoot] := hc
  simp only [List.mem_cons, List.mem_singleton, List.not_mem_nil, or_false] at hc'
  rcases hc' with rfl | rfl
  · intro h; exact absurd h (by decide)
  · intro _; rfl

/-- C18, amended: when the document node has the root element R as its only element
child, has no text node as a direct child, and no other child of the document node has
an element or a text node in its subtree, the whole-document entry of
`xmlFindTextContent` returns the same string as the node entry applied to the document
node. -/
theorem xmlFindTextContentDocument_eq_document_node (doc : Document) (attr : XMLAttribute)
    (R : NodePtr) (hR : R ∈ doc.toPtr.childNodes) (hRel : R.nodeType = NodeType.ELEMENT_NODE)
    (_honly : ∀ c ∈ doc.toPtr.childNodes, c.nodeType = NodeType.ELEMENT_NODE → c = R)
    (_hnotext : ∀ c ∈ doc.toPtr.childNodes, c.nodeType ≠ NodeType.TEXT_NODE)
    (hother : ∀ c ∈ doc.toPtr.childNodes, c ≠ R →
        ∀ q ∈ documentOrder c,
          q.nodeType ≠ NodeType.ELEMENT_NODE ∧ q.nodeType ≠ NodeType.TEXT_NODE) :
    xmlFindTextContentDocument (some doc) attr
      = xmlFindTextContent (some doc.toPtr) attr := by
  have hfirst : firstElement doc = some R :=
    firstElement_of_single_element_child doc R hR hRel
      (fun c hc hne q hq => (hother c hc hne q hq).1)
  rw [xmlFindTextContentDocument_some, hfirst]
  symm
  apply xmlFindTextContent_of_single_relevant_child attr doc.toPtr R _ hR
  · rw [hRel]; decide
  · exact fun c hc hne q hq => (hother c hc hne q hq).2
  · intro h
    have h9 : doc.toPtr.nodeType = NodeType.DOCUMENT_NODE := rfl
    rw [h9] at h
    exact absurd h (by decide)

/-- The amended C18 on a document whose document node holds a comment, the root element
`<r><e class="ctrlstate">motoron</e></r>` and another comment. -/
theorem xmlFindTextContentDocument_eq_document_node_witness :
    commentedDocumentRoot ∈ commentedDocument.toPtr.childNodes
      ∧ commentedDocumentRoot.nodeType = NodeType.ELEMENT_NODE
      ∧ (∀ c ∈ commentedDocument.toPtr.childNodes, c.nodeType ≠ NodeType.TEXT_NODE)
      ∧ xmlFindTextContent (some commentedDocument.toPtr) ⟨"class", "ctrlstate"⟩ = "motoron"
      ∧ xmlFindTextContentDocument (some commentedDocument) ⟨"class", "ctrlstate"⟩
          = xmlFindTextContent (some commentedDocument.toPtr) ⟨"class", "ctrlstate"⟩ := by
  have hmem : ∀ c ∈ commentedDocument.toPtr.childNodes,
      c = ⟨.other .COMMENT "before" [], [(0, commentedDocument.toNode)]⟩
        ∨ c = commentedDocumentRoot
        ∨ c = ⟨.other .COMMENT "after" [], [(2, commentedDocument.toNode)]⟩ := by
    intro c hc
    have hc' : c ∈ [(⟨.other .COMMENT "before" [], [(0, commentedDocument.toNode)]⟩ : NodePtr),
        commentedDocumentRoot,
        ⟨.other .COMMENT "after" [], [(2, commentedDocument.toNode)]⟩] := hc
    simpa only [List.mem_cons, List.mem_singleton, List.not_mem_nil, or_false] using hc'
  refine ⟨List.mem_cons_of_mem _ (List.mem_cons_self _ _), by decide, by decide, by decide, ?_⟩
  apply xmlFindTextContentDocument_eq_document_node commentedDocument ⟨"class", "ctrlstate"⟩
    commentedDocumentRoot (List.mem_cons_of_mem _ (List.mem_cons_self _ _)) (by decide)
  · intro c hc
    rcases hmem c hc with rfl | rfl | rfl
    · intro h; exact absurd h (by decide)
    · intro _; rfl
    · intro h; exact absurd h (by decide)
  · decide
  · intro c hc hne q hq
    rcases hmem c hc with rfl | rfl | rfl
    · have hq' : q ∈ [(⟨.other .COMMENT "before" [], [(0, commentedDocument.toNode)]⟩ : NodePtr)] :=
        hq
      rw [List.mem_singleton] at hq'
      subst hq'
      decide
    · exact absurd rfl hne
    · have hq' : q ∈ [(⟨.other .COMMENT "after" [], [(2, commentedDocument.toNode)]⟩ : NodePtr)] :=
        hq
      rw [List.mem_singleton] at hq'
      subst hq'
      decide

/-! ## The step-by-step functions agree with the functions -/

theorem xmlNodeHasAttributeLoopChecked_eq (attr : XMLAttribute) (attrs : List Attr) :
    ∀ rounds i found, attrs.length ≤ rounds + i →
      xmlNodeHasAttributeLoopChecked attr attrs rounds i found
        = .ok (xmlNodeHasAttributeLoop attr (attrs.drop i) found) := by
  intro rounds
  induction rounds with
  | zero =>
    intro i found h
    have hi : ¬ i < attrs.length := by omega
    simp [xmlNodeHasAttributeLoopChecked, hi, List.drop_eq_nil_of_le (by omega : attrs.length ≤ i),
      xmlNodeHasAttributeLoop]
  | succ rounds ih =>
    intro i found h
    rw [xmlNodeHasAttributeLoopChecked]
    by_cases hi : i < attrs.length
    · cases found with
      | true => simp [xmlNodeHasAttributeLoop_true]
      | false =>
        simp only [hi, decide_True, Bool.not_false, Bool.and_self, if_true, namedNodeMapItem,
          List.getElem?_eq_getElem hi]
        rw [ih (i + 1) _ (by omega), List.drop_eq_getElem_cons hi, xmlNodeHasAttributeLoop]
        by_cases hm : (attrs[i].nodeName == attr.name && attrs[i].nodeValue == attr.value) = true
        · simp [hm]
        · simp [hm]
    · have hd : attrs.drop i = [] := List.drop_eq_nil_of_le (by omega)
      cases found <;> simp [hi, hd, xmlNodeHasAttributeLoop]

theorem NodePtr.attributesOrNull_of_hasAttributes {p : NodePtr} (h : p.hasAttributes = true) :
    p.attributesOrNull = some p.attributes := by
  obtain ⟨n, up⟩ := p
  cases n <;> simp_all [NodePtr.hasAttributes, NodePtr.attributesOrNull, NodePtr.attributes,
    Node.attributes]

theorem xmlNodeHasAttributeChecked_eq (p_node : Option NodePtr) (attr : XMLAttribute) :
    xmlNodeHasAttributeChecked p_node attr = .ok (xmlNodeHasAttribute p_node attr) := by
  cases p_node with
  | none => rfl
  | some p =>
    unfold xmlNodeHasAttributeChecked xmlNodeHasAttribute
    by_cases h : (!(attr.name.isEmpty && attr.value.isEmpty) && p.hasAttributes) = true
    · have hp : p.hasAttributes = true := by
        simp only [Bool.and_eq_true] at h; exact h.2
      simp only [h, if_true, NodePtr.attributesOrNull_of_hasAttributes hp]
      rw [xmlNodeHasAttributeLoopChecked_eq attr _ _ 0 _ (by omega)]
      rfl
    · simp only [h, if_false]
      rfl

theorem isTextWithAttributeChecked_eq (p : NodePtr) (attr : XMLAttribute) :
    isTextWithAttributeChecked p attr = .ok (isMatchingText attr p) := by
  unfold isTextWithAttributeChecked isMatchingText
  by_cases h : (p.nodeType == NodeType.TEXT_NODE) = true
  · simp [h, xmlNodeHasAttributeChecked_eq]
  · simp only [Bool.not_eq_true] at h
    simp [h]

theorem xmlFindTextContentLoopChecked_found (recurse : Option NodePtr → Outcome String)
    (attr : XMLAttribute) (children : List NodePtr) (rounds i : Nat) (r : String) :
    xmlFindTextContentLoopChecked recurse attr children rounds i true r = .ok r := by
  cases rounds <;> simp [xmlFindTextContentLoopChecked]

/-- With nested calls that return the value of the node entry, and with enough rounds
for the children from index `i` on, the child loop returns the value of the search over
those children. -/
theorem xmlFindTextContentLoopChecked_eq (recurse : Option NodePtr → Outcome String)
    (attr : XMLAttribute) (children : List NodePtr)
    (hrec : ∀ c ∈ children, recurse (some c) = .ok (xmlFindTextContent (some c) attr)) :
    ∀ rounds i, children.length ≤ rounds + i →
      xmlFindTextContentLoopChecked recurse attr children rounds i false ""
        = .ok (searchChildren attr (children.drop i)) := by
  intro rounds
  induction rounds with
  | zero =>
    intro i h
    have hi : ¬ i < children.length := by omega
    simp [xmlFindTextContentLoopChecked, hi,
      List.drop_eq_nil_of_le (by omega : children.length ≤ i), searchChildren]
  | succ rounds ih =>
    intro i h
    rw [xmlFindTextContentLoopChecked]
    by_cases hi : i < children.length
    · simp only [hi, decide_True, Bool.not_false, Bool.and_self, if_true, nodeListItem,
        List.getElem?_eq_getElem hi, isTextWithAttributeChecked_eq]
      rw [List.drop_eq_getElem_cons hi, searchChildren]
      cases hm : isMatchingText attr children[i] with
      | true => simp [xmlFindTextContentLoopChecked_found]
      | false =>
        simp only [hrec _ (List.getElem_mem hi), Bool.false_eq_true, if_false]
        by_cases he : xmlFindTextContent (some children[i]) attr = ""
        · have h0 : ("" : String).isEmpty = true := by decide
          simp only [he, h0, Bool.not_true, if_true]
          exact ih (i + 1) (by omega)
        · have : (xmlFindTextContent (some children[i]) attr).isEmpty = false := by
            rw [← Bool.not_eq_true, String.isEmpty_iff]; exact he
          simp [he, this, xmlFindTextContentLoopChecked_found]
    · simp [hi, List.drop_eq_nil_of_le (by omega : children.length ≤ i), searchChildren]

theorem Node.height_lt_of_mem_aux (cs : List Node) :
    ∀ c ∈ cs, c.height < Node.heightList cs := by
  induction cs with
  | nil => intro c hc; simp at hc
  | cons d rest ih =>
    intro c hc
    rw [Node.heightList]
    rcases List.mem_cons.mp hc with rfl | h
    · omega
    · have := ih c h
      omega

theorem Node.height_eq (n : Node) : n.height = Node.heightList n.childNodes := by
  cases n <;> simp [Node.height, Node.childNodes, Node.heightList]

theorem NodePtr.height_lt_of_mem_childNodes {p c : NodePtr} (h : c ∈ p.childNodes) :
    c.node.height < p.node.height := by
  obtain ⟨j, m, _, hm, rfl⟩ := mem_childPtrs h
  rw [Node.height_eq p.node]
  exact Node.height_lt_of_mem_aux _ m hm

/-- With a depth budget above the height of the tree the step-by-step node entry
returns the value of the node entry. -/
theorem xmlFindTextContentChecked_eq (attr : XMLAttribute) :
    ∀ depth (p : NodePtr), p.node.height < depth →
      xmlFindTextContentChecked attr depth (some p) = .ok (xmlFindTextContent (some p) attr) := by
  intro depth
  induction depth with
  | zero => intro p h; omega
  | succ depth ih =>
    intro p h
    rw [xmlFindTextContentChecked, isTextWithAttributeChecked_eq, xmlFindTextContent_some]
    cases hm : isMatchingText attr p with
    | true => simp
    | false =>
      simp only [Bool.false_eq_true, if_false]
      by_cases hc : p.hasChildNodes = true
      · simp only [hc, if_true]
        rw [xmlFindTextContentLoopChecked_eq _ attr p.childNodes _ _ 0 (by omega)]
        · simp
        · intro c hcm
          exact ih c (by have := NodePtr.height_lt_of_mem_childNodes hcm; omega)
      · simp only [hc, if_false]
        have : p.childNodes = [] := by
          simp only [NodePtr.hasChildNodes, Bool.not_eq_true, Bool.not_eq_false',
            List.isEmpty_iff] at hc
          simp [NodePtr.childNodes, hc, childPtrs]
        rw [this]; rfl

/-! ## The step-by-step functions: null pointers and budgets -/

/-- Whatever the budgets, the child loop makes no member call through a null pointer
when the nested calls make none. -/
theorem xmlFindTextContentLoopChecked_ne_nullDereference
    (recurse : Option NodePtr → Outcome String) (attr : XMLAttribute) (children : List NodePtr)
    (hrec : ∀ c, recurse (some c) ≠ .nullDereference) :
    ∀ rounds i found result,
      xmlFindTextContentLoopChecked recurse attr children rounds i found result
        ≠ .nullDereference := by
  intro rounds
  induction rounds with
  | zero =>
    intro i found result
    rw [xmlFindTextContentLoopChecked]
    split <;> simp
  | succ rounds ih =>
    intro i found result
    rw [xmlFindTextContentLoopChecked]
    by_cases hi : i < children.length
    · cases found with
      | true => simp
      | false =>
        simp only [hi, decide_True, Bool.not_false, Bool.and_self, if_true, nodeListItem,
          List.getElem?_eq_getElem hi, isTextWithAttributeChecked_eq]
        cases isMatchingText attr children[i] with
        | true => exact ih _ _ _
        | false =>
          simp only
          cases hr : recurse (some children[i]) with
          | ok r => exact ih _ _ _
          | nullDereference => exact absurd hr (hrec _)
          | outOfFuel => simp
    · simp [hi]

/-- Whatever the depth budget, the step-by-step node entry makes no member call through
a null pointer. -/
theorem xmlFindTextContentChecked_ne_nullDereference (attr : XMLAttribute) :
    ∀ depth (p_node : Option NodePtr),
      xmlFindTextContentChecked attr depth p_node ≠ .nullDereference := by
  intro depth
  induction depth with
  | zero =>
    intro p_node
    cases p_node <;> simp [xmlFindTextContentChecked]
  | succ depth ih =>
    intro p_node
    cases p_node with
    | none => simp [xmlFindTextContentChecked]
    | some p =>
      rw [xmlFindTextContentChecked, isTextWithAttributeChecked_eq]
      cases isMatchingText attr p with
      | true => simp
      | false =>
        simp only
        split
        · exact xmlFindTextContentLoopChecked_ne_nullDereference _ attr _
            (fun c => ih (some c)) _ _ _ _
        · simp

/-- With nested calls that return, and with enough rounds for the children from index
`i` on, the child loop returns. -/
theorem xmlFindTextContentLoopChecked_returns (recurse : Option NodePtr → Outcome String)
    (attr : XMLAttribute) (children : List NodePtr)
    (hrec : ∀ c ∈ children, ∃ s, recurse (some c) = .ok s) :
    ∀ rounds i found result, children.length ≤ rounds + i →
      ∃ r, xmlFindTextContentLoopChecked recurse attr children rounds i found result
        = .ok r := by
  intro rounds
  induction rounds with
  | zero =>
    intro i found result h
    have hi : ¬ i < children.length := by omega
    exact ⟨result, by simp [xmlFindTextContentLoopChecked, hi]⟩
  | succ rounds ih =>
    intro i found result h
    rw [xmlFindTextContentLoopChecked]
    by_cases hi : i < children.length
    · cases found with
      | true => exact ⟨result, by simp⟩
      | false =>
        simp only [hi, decide_True, Bool.not_false, Bool.and_self, if_true, nodeListItem,
          List.getElem?_eq_getElem hi, isTextWithAttributeChecked_eq]
        cases isMatchingText attr children[i] with
        | true => exact ih _ _ _ (by omega)
        | false =>
          obtain ⟨s, hs⟩ := hrec _ (List.getElem_mem hi)
          simp only [hs]
          exact ih _ _ _ (by omega)
    · exact ⟨result, by simp [hi]⟩

/-- With as many rounds as nodes are pending, the step-by-step loop of `xmlFindNodes`
returns the matching accepted nodes appended to the result so far. -/
theorem xmlFindNodesLoopChecked_advance (attr : XMLAttribute) (w : Nat) (l : List NodePtr) :
    ∀ rounds (result : List NodePtr), l.length ≤ rounds →
      xmlFindNodesLoopChecked attr rounds (NodeIterator.advance w l).1
          ⟨w, (NodeIterator.advance w l).2⟩ result
        = .ok (result ++ (l.filter (NodeIterator.accept w)).filter
            (fun q => xmlNodeHasAttribute (some q) attr)) := by
  induction l with
  | nil =>
    intro rounds result _
    simp only [NodeIterator.advance]
    cases rounds <;> simp [xmlFindNodesLoopChecked]
  | cons p rest ih =>
    intro rounds result h
    unfold NodeIterator.advance
    by_cases ha : NodeIterator.accept w p = true
    · simp only [ha, if_true]
      cases rounds with
      | zero => simp at h
      | succ rounds =>
        rw [xmlFindNodesLoopChecked, xmlNodeHasAttributeChecked_eq]
        simp only [NodeIterator.nextNode]
        rw [ih rounds _ (by simpa using h)]
        simp only [List.filter_cons, ha, if_true]
        by_cases hm : xmlNodeHasAttribute (some p) attr = true
        · simp [hm]
        · simp [hm]
    · simp only [Bool.not_eq_true] at ha
      simp only [ha, Bool.false_eq_true, if_false]
      rw [ih rounds result (by simp at h; omega)]
      simp [List.filter_cons, ha]

theorem xmlFindNodesChecked_eq (p_xml_document : Option Document) (attr : XMLAttribute) :
    xmlFindNodesChecked p_xml_document attr = .ok (xmlFindNodes p_xml_document attr) := by
  cases p_xml_document with
  | none => rfl
  | some doc =>
    rw [xmlFindNodes_eq_filter]
    simp only [xmlFindNodesChecked, elementsInDocumentOrder, NodeIterator.nextNode,
      NodeIterator.create]
    rw [xmlFindNodesLoopChecked_advance attr _ _ _ _ (le_refl _)]
    have : NodeIterator.accept SHOW_ELEMENT = fun q => q.nodeType == NodeType.ELEMENT_NODE := by
      funext p; exact NodeIterator.accept_SHOW_ELEMENT p
    rw [this]
    simp

/-! ## Claims about error branches and termination -/

theorem height_le_of_mem_documentOrder (p : NodePtr) :
    ∀ q ∈ documentOrder p, q.node.height ≤ p.node.height := by
  induction p using NodePtr.induct with
  | h p ih =>
    intro q hq
    rw [documentOrder_eq] at hq
    rcases List.mem_cons.mp hq with rfl | hq
    · exact le_refl _
    · obtain ⟨c, hc, hqc⟩ := List.mem_flatMap.mp hq
      have h1 := ih c hc q hqc
      have h2 := NodePtr.height_lt_of_mem_childNodes hc
      omega

theorem xmlFindTextContentChecked_eq_of_height (attr : XMLAttribute) (depth : Nat)
    (p_node : Option NodePtr) (h : heightOrZero p_node < depth) :
    xmlFindTextContentChecked attr depth p_node = .ok (xmlFindTextContent p_node attr) := by
  cases p_node with
  | none => cases depth <;> rfl
  | some p => exact xmlFindTextContentChecked_eq attr depth p h

theorem heightOrZero_firstElement_le (doc : Document) :
    heightOrZero (firstElement doc) ≤ doc.toNode.height := by
  cases hR : firstElement doc with
  | none => exact Nat.zero_le _
  | some R => exact height_le_of_mem_documentOrder doc.toPtr R (firstElement_mem hR).1

/-- C12: run step by step, with every `item(i)` lookup, every member call through a
pointer and the null result of `attributes()` made explicit, the four functions produce
an ordinary result and reach no error branch. `xmlNodeHasAttribute` and `xmlFindNodes`
return their values; both entries of `xmlFindTextContent` make no member call through a
null pointer whatever the depth allowed and return their values once the depth allowed
exceeds the height of the tree; every lookup below the list length yields a node; and the
test of a text node without parent is answered by `xmlNodeHasAttribute` on the null
pointer. -/
theorem checked_functions_never_fail (p_xml_document : Option Document)
    (p_node : Option NodePtr) (attr : XMLAttribute) :
    xmlNodeHasAttributeChecked p_node attr = .ok (xmlNodeHasAttribute p_node attr)
      ∧ xmlFindNodesChecked p_xml_document attr = .ok (xmlFindNodes p_xml_document attr)
      ∧ (∀ depth, xmlFindTextContentChecked attr depth p_node ≠ .nullDereference)
      ∧ (∀ depth, xmlFindTextContentDocumentChecked attr depth p_xml_document
          ≠ .nullDereference)
      ∧ (∀ depth, heightOrZero p_node < depth →
          xmlFindTextContentChecked attr depth p_node = .ok (xmlFindTextContent p_node attr))
      ∧ (∀ depth, (∀ doc, p_xml_document = some doc → doc.toNode.height < depth) →
          xmlFindTextContentDocumentChecked attr depth p_xml_document
            = .ok (xmlFindTextContentDocument p_xml_document attr))
      ∧ (∀ (p : NodePtr) (i : Nat), i < p.childNodes.length →
          ∃ c, nodeListItem p.childNodes i = some c)
      ∧ (∀ (p : NodePtr) (i : Nat), i < p.attributes.length →
          ∃ a, namedNodeMapItem p.attributes i = some a)
      ∧ (∀ p : NodePtr, p.hasAttributes = true → p.attributesOrNull = some p.attributes)
      ∧ (∀ p : NodePtr, p.nodeType = NodeType.TEXT_NODE → p.parentNode = none →
          isTextWithAttributeChecked p attr = .ok (xmlNodeHasAttribute none attr)) := by
  refine ⟨xmlNodeHasAttributeChecked_eq p_node attr, xmlFindNodesChecked_eq p_xml_document attr,
    fun depth => xmlFindTextContentChecked_ne_nullDereference attr depth p_node, ?_,
    fun depth h => xmlFindTextContentChecked_eq_of_height attr depth p_node h, ?_, ?_, ?_,
    fun p h => NodePtr.attributesOrNull_of_hasAttributes h, ?_⟩
  · intro depth
    cases p_xml_document with
    | none => simp [xmlFindTextContentDocumentChecked]
    | some doc => exact xmlFindTextContentChecked_ne_nullDereference attr depth _
  · intro depth h
    cases p_xml_document with
    | none => rfl
    | some doc =>
      simp only [xmlFindTextContentDocumentChecked, xmlFindTextContentDocument]
      apply xmlFindTextContentChecked_eq_of_height
      rw [NodeIterator.nextNode_create]
      have := heightOrZero_firstElement_le doc
      have := h doc rfl
      omega
  · intro p i hi
    exact ⟨_, List.getElem?_eq_getElem hi⟩
  · intro p i hi
    exact ⟨_, List.getElem?_eq_getElem hi⟩
  · intro p ht hp
    rw [isTextWithAttributeChecked_eq]
    simp [isMatchingText, ht, hp]

/-- C12 on the document `<r><x/><e class="ctrlstate">motoron</e></r>` and its root
element, with a depth budget of 3. -/
theorem checked_functions_never_fail_witness :
    heightOrZero (some ctrlstateRoot) < 3
      ∧ ctrlstateDocument.toNode.height < 4
      ∧ xmlFindTextContentChecked ⟨"class", "ctrlstate"⟩ 3 (some ctrlstateRoot) = .ok "motoron"
      ∧ xmlFindTextContentDocumentChecked ⟨"class", "ctrlstate"⟩ 4 (some ctrlstateDocument)
          = .ok "motoron"
      ∧ xmlNodeHasAttributeChecked (some ctrlstateElement) ⟨"class", "ctrlstate"⟩ = .ok true
      ∧ xmlFindTextContentChecked ⟨"", ""⟩ 1 (some ⟨.text "alone", []⟩) = .ok "alone" := by
  have h := checked_functions_never_fail (some ctrlstateDocument) (some ctrlstateRoot)
    ⟨"class", "ctrlstate"⟩
  have h1 := h.2.2.2.2.1 3 (by decide)
  have h2 := h.2.2.2.2.2.1 4 (by intro doc hdoc; cases hdoc; decide)
  refine ⟨by decide, by decide, ?_, ?_, by decide, by decide⟩
  · rw [h1]; decide
  · rw [h2]; decide

/-- C19: the node entry of `xmlFindTextContent` terminates on every tree. Run step by
step, it returns its value as soon as the number of nested calls allowed exceeds the
height of the tree, because each nested call is made on a child, whose tree is lower;
the child loop returns within as many rounds as the node has children when the nested
calls return, and the attribute loop within as many rounds as there are attributes. -/
theorem xmlFindTextContent_terminates (attr : XMLAttribute) (p : NodePtr) :
    (∀ depth, p.node.height < depth →
        xmlFindTextContentChecked attr depth (some p) = .ok (xmlFindTextContent (some p) attr))
      ∧ (∀ c ∈ p.childNodes, c.node.height < p.node.height)
      ∧ (∀ recurse : Option NodePtr → Outcome String,
          (∀ c ∈ p.childNodes, ∃ s, recurse (some c) = .ok s) →
          ∀ found result, ∃ r,
            xmlFindTextContentLoopChecked recurse attr p.childNodes p.childNodes.length 0
              found result = .ok r)
      ∧ (∀ found,
          xmlNodeHasAttributeLoopChecked attr p.attributes p.attributes.length 0 found
            = .ok (xmlNodeHasAttributeLoop attr p.attributes found)) := by
  refine ⟨fun depth h => xmlFindTextContentChecked_eq attr depth p h,
    fun c hc => NodePtr.height_lt_of_mem_childNodes hc, ?_, ?_⟩
  · intro recurse hrec found result
    exact xmlFindTextContentLoopChecked_returns recurse attr _ hrec _ 0 found result (by omega)
  · intro found
    rw [xmlNodeHasAttributeLoopChecked_eq attr _ _ 0 found (by omega)]
    rfl

/-- C19 on `<r><a class="x">first</a><b class="x">second</b></r>`, a tree of height 2:
three nested calls suffice. -/
theorem xmlFindTextContent_terminates_witness :
    firstSecondTree.height < 3
      ∧ xmlFindTextContentChecked ⟨"class", "x"⟩ 3 (some ⟨firstSecondTree, []⟩) = .ok "first"
      ∧ xmlFindTextContentChecked ⟨"class", "y"⟩ 3 (some ⟨firstSecondTree, []⟩) = .ok "" := by
  refine ⟨by decide, ?_, ?_⟩
  · rw [(xmlFindTextContent_terminates ⟨"class", "x"⟩ ⟨firstSecondTree, []⟩).1 3 (by decide)]
    decide
  · rw [(xmlFindTextContent_terminates ⟨"class", "y"⟩ ⟨firstSecondTree, []⟩).1 3 (by decide)]
    decide

/-! ## Claims about a text hit, the wildcard, the attribute set and the states of TriBool -/

/-- C21: when the whole-document entry of `xmlFindTextContent` returns a non-empty
string, `xmlFindNodes` on the same document and predicate returns a non-empty sequence:
some element of the document passes the attribute test and is enumerated. -/
theorem xmlFindNodes_ne_nil_of_text (p_xml_document : Option Document) (attr : XMLAttribute)
    (h : xmlFindTextContentDocument p_xml_document attr ≠ "") :
    xmlFindNodes p_xml_document attr ≠ []
      ∧ ∃ E ∈ xmlFindNodes p_xml_document attr,
          E.nodeType = NodeType.ELEMENT_NODE ∧ xmlNodeHasAttribute (some E) attr = true := by
  have key : ∃ E ∈ xmlFindNodes p_xml_document attr,
      E.nodeType = NodeType.ELEMENT_NODE ∧ xmlNodeHasAttribute (some E) attr = true := by
    cases p_xml_document with
    | none => exact absurd rfl h
    | some doc =>
      rw [xmlFindTextContentDocument_some] at h
      cases hR : firstElement doc with
      | none => rw [hR] at h; exact absurd rfl h
      | some R =>
        rw [hR] at h
        obtain ⟨hRmem, hRel⟩ := firstElement_mem hR
        have hin : ∀ E, E ∈ documentOrder doc.toPtr → E.nodeType = NodeType.ELEMENT_NODE →
            xmlNodeHasAttribute (some E) attr = true →
            E ∈ xmlFindNodes (some doc) attr := by
          intro E hE hEel hEm
          rw [xmlFindNodes_eq_filter]
          simp only [elementsInDocumentOrder, List.mem_filter]
          exact ⟨⟨hE, by simpa using hEel⟩, hEm⟩
        cases hw : isWildcard attr with
        | true =>
          have hRm : xmlNodeHasAttribute (some R) attr = true := by
            rw [xmlNodeHasAttribute_some, hw]; rfl
          exact ⟨R, hin R hRmem hRel hRm, hRel, hRm⟩
        | false =>
          obtain ⟨q, hq, hqm, _⟩ := xmlFindTextContent_sound attr R h
          have hne : q ≠ R := by
            rintro rfl
            have := isMatchingText_nodeType hqm
            rw [hRel] at this; exact absurd this (by decide)
          obtain ⟨q', hq', _, hq'm⟩ := parent_of_matching_text hq hne hqm
          have hq'el := nodeType_of_hasAttribute hw hq'm
          exact ⟨q', hin q' (documentOrder_subset hRmem hq') hq'el hq'm, hq'el, hq'm⟩
  obtain ⟨E, hE, hEel, hEm⟩ := key
  exact ⟨List.ne_nil_of_mem hE, E, hE, hEel, hEm⟩

/-- C21 on `<r><x/><e class="ctrlstate">motoron</e></r>`: the text entry returns
"motoron" and `xmlFindNodes` is not empty. -/
theorem xmlFindNodes_ne_nil_of_text_witness :
    xmlFindTextContentDocument (some ctrlstateDocument) ⟨"class", "ctrlstate"⟩ ≠ ""
      ∧ xmlFindNodes (some ctrlstateDocument) ⟨"class", "ctrlstate"⟩ ≠ [] :=
  ⟨by decide,
   (xmlFindNodes_ne_nil_of_text (some ctrlstateDocument) ⟨"class", "ctrlstate"⟩ (by decide)).1⟩

/-- C22: with the wildcard predicate (name and value both empty, as in a
default-constructed `XMLAttribute`) `xmlFindNodes` returns every element node of the
document, in document order, whether or not the element has attributes. -/
theorem xmlFindNodes_wildcard (p_xml_document : Option Document) (attr : XMLAttribute)
    (hname : attr.name = "") (hvalue : attr.value = "") :
    xmlFindNodes p_xml_document attr = elementsInDocumentOrder p_xml_document
      ∧ (∀ doc, p_xml_document = some doc →
          xmlFindNodes p_xml_document attr
            = (documentOrder doc.toPtr).filter (fun q => q.nodeType == NodeType.ELEMENT_NODE))
      ∧ (∀ doc, p_xml_document = some doc → ∀ q ∈ documentOrder doc.toPtr,
          q.nodeType = NodeType.ELEMENT_NODE → q ∈ xmlFindNodes p_xml_document attr) := by
  have hw : isWildcard attr = true := (isWildcard_iff attr).mpr ⟨hname, hvalue⟩
  have heq : xmlFindNodes p_xml_document attr = elementsInDocumentOrder p_xml_document := by
    rw [xmlFindNodes_eq_filter, List.filter_eq_self]
    intro q _
    rw [xmlNodeHasAttribute_some, hw]; rfl
  refine ⟨heq, ?_, ?_⟩
  · intro doc hdoc
    rw [heq, hdoc]; rfl
  · intro doc hdoc q hq hqel
    rw [heq, hdoc]
    simp only [elementsInDocumentOrder, List.mem_filter]
    exact ⟨hq, by simpa using hqel⟩

/-- C22 on `<r><e1 class="a"/><x/><e2 class="a"/></r>` with a default-constructed
`XMLAttribute`: all four elements are returned, `x` without attributes included. -/
theorem xmlFindNodes_wildcard_witness :
    ({} : XMLAttribute).name = "" ∧ ({} : XMLAttribute).value = ""
      ∧ xmlFindNodes (some twoMatchesDocument) {}
        = [⟨twoMatchesRoot, [(0, twoMatchesDocument.toNode)]⟩,
           twoMatchesChild 0 (.element "e1" [⟨"class", "a"⟩] []),
           twoMatchesChild 1 (.element "x" [] []),
           twoMatchesChild 2 (.element "e2" [⟨"class", "a"⟩] [])] :=
  ⟨rfl, rfl, (xmlFindNodes_wildcard (some twoMatchesDocument) {} rfl rfl).1⟩

theorem xmlNodeHasAttribute_eq_of_mem_iff (attr : XMLAttribute) (p q : NodePtr)
    (h : ∀ a, a ∈ p.attributes ↔ a ∈ q.attributes) :
    xmlNodeHasAttribute (some p) attr = xmlNodeHasAttribute (some q) attr := by
  rw [xmlNodeHasAttribute_some, xmlNodeHasAttribute_some]
  congr 1
  rw [Bool.eq_iff_iff, List.any_eq_true, List.any_eq_true]
  simp only [NodePtr.attributes] at h
  constructor
  · rintro ⟨a, ha, hm⟩; exact ⟨a, (h a).mp ha, hm⟩
  · rintro ⟨a, ha, hm⟩; exact ⟨a, (h a).mpr ha, hm⟩

/-- C23: the result of `xmlNodeHasAttribute` depends only on which (name, value) pairs
occur among the attributes of the node: two nodes with the same pairs give the same
result; in particular the result is the same for a permutation of the attribute list
of an element and for the list with one of its attributes repeated. -/
theorem xmlNodeHasAttribute_attribute_set (attr : XMLAttribute) :
    (∀ p q : NodePtr, (∀ a, a ∈ p.attributes ↔ a ∈ q.attributes) →
        xmlNodeHasAttribute (some p) attr = xmlNodeHasAttribute (some q) attr)
      ∧ (∀ (nm : String) (attrs attrs' : List Attr) (cs : List Node) (up : List (Nat × Node)),
          attrs.Perm attrs' →
          xmlNodeHasAttribute (some ⟨.element nm attrs cs, up⟩) attr
            = xmlNodeHasAttribute (some ⟨.element nm attrs' cs, up⟩) attr)
      ∧ (∀ (nm : String) (a : Attr) (attrs : List Attr) (cs : List Node)
          (up : List (Nat × Node)), a ∈ attrs →
          xmlNodeHasAttribute (some ⟨.element nm (a :: attrs) cs, up⟩) attr
            = xmlNodeHasAttribute (some ⟨.element nm attrs cs, up⟩) attr) := by
  refine ⟨xmlNodeHasAttribute_eq_of_mem_iff attr, ?_, ?_⟩
  · intro nm attrs attrs' cs up h
    apply xmlNodeHasAttribute_eq_of_mem_iff
    intro a
    exact h.mem_iff
  · intro nm a attrs cs up ha
    apply xmlNodeHasAttribute_eq_of_mem_iff
    intro b
    simp only [NodePtr.attributes, Node.attributes, List.mem_cons]
    constructor
    · rintro (rfl | hb)
      · exact ha
      · exact hb
    · exact Or.inr

/-- C23 on an element with the attributes `id="1"` and `class="a"`: the same result for
the reversed list and for the list with `class="a"` repeated, the match being found
first, last or twice. -/
theorem xmlNodeHasAttribute_attribute_set_witness :
    (∀ a, a ∈ NodePtr.attributes ⟨.element "e" [⟨"id", "1"⟩, ⟨"class", "a"⟩] [], []⟩
        ↔ a ∈ NodePtr.attributes
            ⟨.element "e" [⟨"class", "a"⟩, ⟨"id", "1"⟩, ⟨"class", "a"⟩] [], []⟩)
      ∧ xmlNodeHasAttribute (some ⟨.element "e" [⟨"id", "1"⟩, ⟨"class", "a"⟩] [], []⟩)
            ⟨"class", "a"⟩
          = xmlNodeHasAttribute
              (some ⟨.element "e" [⟨"class", "a"⟩, ⟨"id", "1"⟩, ⟨"class", "a"⟩] [], []⟩)
              ⟨"class", "a"⟩ := by
  have h : ∀ a, a ∈ NodePtr.attributes ⟨.element "e" [⟨"id", "1"⟩, ⟨"class", "a"⟩] [], []⟩
      ↔ a ∈ NodePtr.attributes
          ⟨.element "e" [⟨"class", "a"⟩, ⟨"id", "1"⟩, ⟨"class", "a"⟩] [], []⟩ := by
    intro a
    simp only [NodePtr.attributes, Node.attributes, List.mem_cons, List.mem_singleton,
      List.not_mem_nil, or_false]
    tauto
  exact ⟨h, (xmlNodeHasAttribute_attribute_set ⟨"class", "a"⟩).1 _ _ h⟩

theorem TriBool.exactlyOneState_iff (u : TriBool) :
    u.ExactlyOneState ↔ u.value.isEnumerator = true := by
  obtain ⟨x⟩ := u
  unfold TriBool.ExactlyOneState
  cases x <;> decide

/-- C24, as stated, fails for the value 3 of the enum, which names no enumerator: after
`TriBool(static_cast<Values>(3))`, and after assigning that enum value to a
default-constructed object, `isUnknown()`, `isTrue()` and `isFalse()` are all false. -/
theorem TriBool.no_state_of_unnamed_value :
    TriBool.Values.UNNAMED_3.toNat = 3
      ∧ (TriBool.ofValues .UNNAMED_3).isUnknown = false
      ∧ (TriBool.ofValues .UNNAMED_3).isTrue = false
      ∧ (TriBool.ofValues .UNNAMED_3).isFalse = false
      ∧ ¬ (TriBool.ofValues .UNNAMED_3).ExactlyOneState
      ∧ (TriBool.new.assignValues .UNNAMED_3).isUnknown = false
      ∧ (TriBool.new.assignValues .UNNAMED_3).isTrue = false
      ∧ (TriBool.new.assignValues .UNNAMED_3).isFalse = false
      ∧ ¬ (TriBool.new.assignValues .UNNAMED_3).ExactlyOneState := by
  unfold TriBool.ExactlyOneState
  decide

/-- C24, amended: for every `TriBool` value at most one of `isUnknown()`, `isTrue()` and
`isFalse()` is true, and exactly one is true exactly when the stored value is one of the
three enumerators. That is the case after default construction, after construction or
assignment from a boolean, after construction or assignment from one of the three
enumerators, and after assignment from a `TriBool` for which it is the case. -/
theorem TriBool.exactly_one_state (t other : TriBool) (v : TriBool.Values) (b : Bool) :
    (¬ (t.isUnknown = true ∧ t.isTrue = true) ∧ ¬ (t.isUnknown = true ∧ t.isFalse = true)
        ∧ ¬ (t.isTrue = true ∧ t.isFalse = true))
      ∧ (t.ExactlyOneState ↔ t.value.isEnumerator = true)
      ∧ TriBool.new.ExactlyOneState
      ∧ (TriBool.ofBool b).ExactlyOneState
      ∧ (t.assignBool b).ExactlyOneState
      ∧ (v.isEnumerator = true → (TriBool.ofValues v).ExactlyOneState)
      ∧ (v.isEnumerator = true → (t.assignValues v).ExactlyOneState)
      ∧ (other.ExactlyOneState → (t.assign other).ExactlyOneState) := by
  refine ⟨?_, TriBool.exactlyOneState_iff t, ?_, ?_, ?_, ?_, ?_, ?_⟩
  · obtain ⟨x⟩ := t
    cases x <;> decide
  · rw [TriBool.exactlyOneState_iff]; rfl
  · rw [TriBool.exactlyOneState_iff]; cases b <;> rfl
  · rw [TriBool.exactlyOneState_iff]; cases b <;> rfl
  · intro h; rw [TriBool.exactlyOneState_iff]; exact h
  · intro h; rw [TriBool.exactlyOneState_iff]; exact h
  · intro h
    rw [TriBool.exactlyOneState_iff] at h ⊢
    exact h

/-- The amended C24 on the enumerator `FALSE_VALUE`: a `TriBool` built from it, assigned
from it, and assigned from `TriBool(true)` each have exactly one state. -/
theorem TriBool.exactly_one_state_witness :
    TriBool.Values.FALSE_VALUE.isEnumerator = true
      ∧ (TriBool.ofValues .FALSE_VALUE).ExactlyOneState
      ∧ (TriBool.new.assignValues .FALSE_VALUE).ExactlyOneState
      ∧ (TriBool.ofBool true).ExactlyOneState
      ∧ (TriBool.new.assign (TriBool.ofBool true)).ExactlyOneState := by
  have h := TriBool.exactly_one_state TriBool.new (TriBool.ofBool true) .FALSE_VALUE true
  have h3 := h.2.2.2
  have h5 := h3.2.2
  exact ⟨by decide, h5.1 (by decide), h5.2.1 (by decide), h3.1, h5.2.2 h3.1⟩

/-! ## The claim about the predefined predicates -/

theorem predefinedPredicates_table :
    ∀ x ∈ predefinedPredicates,
      x.1.name = SystemConstants.RWS.Identifiers.CLASS ∧ x.1.name = "class"
        ∧ x.1.value = x.2 ∧ x.1.value ≠ "" ∧ isWildcard x.1 = false := by
  decide

/-- C25: every predefined predicate of `SystemConstants::RWS::XMLAttributes` has the
name "class", which is `Identifiers::CLASS`, and a non-empty value equal to the
like-named constant of `SystemConstants::RWS::Identifiers`; none is the wildcard, and
`xmlNodeHasAttribute` returns false for each of them on the null pointer and on a node
without attributes. -/
theorem predefinedPredicates_spec :
    predefinedPredicates.length = 16
      ∧ ∀ x ∈ predefinedPredicates,
          x.1.name = SystemConstants.RWS.Identifiers.CLASS ∧ x.1.name = "class"
            ∧ x.1.value = x.2 ∧ x.1.value ≠ ""
            ∧ ¬ (x.1.name = "" ∧ x.1.value = "")
            ∧ xmlNodeHasAttribute none x.1 = false
            ∧ ∀ p : NodePtr, p.attributes = [] → xmlNodeHasAttribute (some p) x.1 = false := by
  refine ⟨rfl, ?_⟩
  intro x hx
  obtain ⟨h1, h2, h3, h4, hw⟩ := predefinedPredicates_table x hx
  refine ⟨h1, h2, h3, h4, ?_, ?_, ?_⟩
  · intro h
    rw [(isWildcard_iff x.1).mpr h] at hw
    exact Bool.noConfusion hw
  · rw [xmlNodeHasAttribute_none, hw]
  · intro p hp
    rw [xmlNodeHasAttribute_some, hw]
    simp only [NodePtr.attributes] at hp
    simp [hp]

/-- C25 at the predicate `CLASS_CTRLSTATE`: not found on the null pointer nor on an
element without attributes. -/
theorem predefinedPredicates_spec_witness :
    (SystemConstants.RWS.XMLAttributes.CLASS_CTRLSTATE, SystemConstants.RWS.Identifiers.CTRLSTATE)
        ∈ predefinedPredicates
      ∧ SystemConstants.RWS.XMLAttributes.CLASS_CTRLSTATE.value = "ctrlstate"
      ∧ xmlNodeHasAttribute none SystemConstants.RWS.XMLAttributes.CLASS_CTRLSTATE = false
      ∧ xmlNodeHasAttribute (some ⟨.element "li" [] [], []⟩)
          SystemConstants.RWS.XMLAttributes.CLASS_CTRLSTATE = false := by
  have hmem : (SystemConstants.RWS.XMLAttributes.CLASS_CTRLSTATE,
      SystemConstants.RWS.Identifiers.CTRLSTATE) ∈ predefinedPredicates := by decide
  have h := predefinedPredicates_spec.2 _ hmem
  exact ⟨hmem, h.2.2.1, h.2.2.2.2.2.1, h.2.2.2.2.2.2 ⟨.element "li" [] [], []⟩ rfl⟩

end abb.rws
